import Mathlib

/-!
Shallow embedding of the configuration-loading code of pathvector
(`internal/config/config.go`): the community classifier
`categorizeCommunity` and the `Load` resolution pipeline (template merge,
defaulting, address-family partitioning, community categorization), together
with proofs of the specified properties.

Go strings are modelled as lists of characters (`Str`), Go `nil` pointers as
`Option.none`, and the reflection-driven walk over the `Peer` struct as a walk
over the `PField` enumeration of the struct's fields.
-/

/-- Go strings are modelled as lists of characters. -/
abbrev Str := List Char

/-- Coerce a Lean string literal to the character-list model. -/
def str (s : String) : Str := s.data

/-- Model of Go `strings.Split(s, sep)` for a single-character separator:
splits around every occurrence of `sep`; the empty string yields `[[]]`. -/
def splitOnChar (sep : Char) : Str → List Str
  | [] => [[]]
  | c :: rest =>
    let r := splitOnChar sep rest
    if c = sep then [] :: r
    else
      match r with
      | [] => [[c]]
      | h :: t => (c :: h) :: t

/-- Go `strings.ReplaceAll(s, ":", ",")`: with a one-character pattern this is
a character-wise replacement. -/
def replaceColonComma (s : Str) : Str :=
  s.map (fun c => if c = ':' then ',' else c)

/-- Decimal digit test used by the `strconv.Atoi` model. -/
def isDigitCh (c : Char) : Bool := '0' ≤ c && c ≤ '9'

/-- Numeric value of a string of decimal digits, most significant first. -/
def digitsVal (l : Str) : Nat :=
  l.foldl (fun acc c => acc * 10 + (c.toNat - '0'.toNat)) 0

/-- Digit-string part of the `strconv.Atoi` model: at least one decimal
digit, with the `int64` range check (`ErrRange` makes `Atoi` return a
non-nil error). -/
def goAtoiDigits (neg : Bool) (digits : Str) : Option Int :=
  if digits.isEmpty then none
  else if digits.all isDigitCh then
    let n : Int := (digitsVal digits : Nat)
    let v : Int := if neg then -n else n
    if v < -(2 ^ 63) ∨ v > 2 ^ 63 - 1 then none else some v
  else none

/-- Model of Go `strconv.Atoi` on a 64-bit platform: an optional single
leading sign followed by decimal digits. -/
def goAtoi (s : Str) : Option Int :=
  match s with
  | [] => goAtoiDigits false []
  | c :: rest =>
    if c = '+' then goAtoiDigits false rest
    else if c = '-' then goAtoiDigits true rest
    else goAtoiDigits false (c :: rest)

/-- Model of Go `strconv.ParseBool`. -/
def goParseBool (s : Str) : Option Bool :=
  if s = str "1" ∨ s = str "t" ∨ s = str "T" ∨ s = str "true" ∨
     s = str "TRUE" ∨ s = str "True" then some true
  else if s = str "0" ∨ s = str "f" ∨ s = str "F" ∨ s = str "false" ∨
     s = str "FALSE" ∨ s = str "False" then some false
  else none

/-- Classifier result string for standard-form communities. -/
def strStandard : Str := str "standard"

/-- Classifier result string for large-form communities. -/
def strLarge : Str := str "large"

/-- Embedding of `categorizeCommunity` (config.go:237-288): returns
`"standard"`, `"large"`, or the empty string for invalid tokens.  The Go code
indexes the split only under a length guard, rendered here as a match on the
list shape. -/
def categorizeCommunity (input : Str) : Str :=
  match splitOnChar ',' input with
  | [s0, s1] =>
    match goAtoi s0, goAtoi s1 with
    | some firstPart, some secondPart =>
      if firstPart < 0 ∨ firstPart > 65535 then []
      else if secondPart < 0 ∨ secondPart > 65535 then []
      else strStandard
    | _, _ => []
  | _ =>
    match splitOnChar ':' input with
    | [l0, l1, l2] =>
      match goAtoi l0, goAtoi l1, goAtoi l2 with
      | some firstPart, some secondPart, some thirdPart =>
        if firstPart < 0 ∨ firstPart > 4294967295 then []
        else if secondPart < 0 ∨ secondPart > 4294967295 then []
        else if thirdPart < 0 ∨ thirdPart > 4294967295 then []
        else strLarge
      | _, _, _ => []
    | _ => []

/-- Spec-side condition: the component parses as an integer in `[lo, hi]`. -/
def parsesInRangeB (lo hi : Int) (s : Str) : Bool :=
  match goAtoi s with
  | some a => decide (lo ≤ a) && decide (a ≤ hi)
  | none => false

/-- Spec-side condition for the standard form: splitting on `,` yields exactly
two components, each an integer in `[0, 65535]`. -/
def standardCondB (input : Str) : Bool :=
  match splitOnChar ',' input with
  | [s0, s1] => parsesInRangeB 0 65535 s0 && parsesInRangeB 0 65535 s1
  | _ => false

/-- Spec-side condition for the large form: splitting on `:` yields exactly
three components, each an integer in `[0, 4294967295]`. -/
def largeCondB (input : Str) : Bool :=
  match splitOnChar ':' input with
  | [l0, l1, l2] =>
    parsesInRangeB 0 4294967295 l0 && parsesInRangeB 0 4294967295 l1 &&
      parsesInRangeB 0 4294967295 l2
  | _ => false

/-!
Model of the Go `net` package functions used by `Load`: `ParseCIDR`,
`ParseIP` and `IP.To4`.  IP addresses are byte lists; `parseIPv4` yields the
16-byte IPv4-in-IPv6 form exactly as Go `net.IPv4` does.
-/

/-- Loop of Go `net.dtoi`: consume decimal digits, capping at `big` =
0xFFFFFF; returns (value, index, ok). -/
def dtoiLoop : Str → Nat → Nat → Nat × Nat × Bool
  | [], i, n => (n, i, true)
  | c :: rest, i, n =>
    if isDigitCh c then
      let n2 := n * 10 + (c.toNat - '0'.toNat)
      if n2 ≥ 16777215 then (16777215, i, false)
      else dtoiLoop rest (i + 1) n2
    else (n, i, true)

/-- Go `net.dtoi`: decimal prefix of `s`, empty prefix is not ok. -/
def dtoi (s : Str) : Nat × Nat × Bool :=
  let r := dtoiLoop s 0 0
  if r.2.1 = 0 then (0, 0, false) else r

/-- Hexadecimal digit value, if any. -/
def hexVal (c : Char) : Option Nat :=
  if '0' ≤ c ∧ c ≤ '9' then some (c.toNat - '0'.toNat)
  else if 'a' ≤ c ∧ c ≤ 'f' then some (c.toNat - 'a'.toNat + 10)
  else if 'A' ≤ c ∧ c ≤ 'F' then some (c.toNat - 'A'.toNat + 10)
  else none

/-- Loop of Go `net.xtoi`: consume hex digits; overflow past 0xFFFFFF fails. -/
def xtoiLoop : Str → Nat → Nat → Nat × Nat × Bool
  | [], i, n => (n, i, true)
  | c :: rest, i, n =>
    match hexVal c with
    | none => (n, i, true)
    | some d =>
      let n2 := n * 16 + d
      if n2 ≥ 16777215 then (0, i, false)
      else xtoiLoop rest (i + 1) n2

/-- Go `net.xtoi`: hexadecimal prefix of `s`, empty prefix is not ok. -/
def xtoi (s : Str) : Nat × Nat × Bool :=
  let r := xtoiLoop s 0 0
  if r.2.2 ∧ r.2.1 = 0 then (0, 0, false) else r

/-- The 12-byte prefix Go uses to store an IPv4 address in 16-byte form. -/
def v4InV6Pre : List Nat := [0, 0, 0, 0, 0, 0, 0, 0, 0, 0, 255, 255]

/-- Field loop of Go `net.parseIPv4`: four dot-separated decimal octets,
leading zeros rejected; `acc.isEmpty` plays the role of `i > 0`. -/
def parseIPv4Aux : Nat → Str → List Nat → Option (List Nat)
  | 0, s, acc => if s.isEmpty then some acc else none
  | fuel + 1, s, acc =>
    if s.isEmpty then none
    else
      let s2opt : Option Str :=
        if acc.isEmpty then some s
        else match s with
          | '.' :: r => some r
          | _ => none
      match s2opt with
      | none => none
      | some s2 =>
        let (n, c, ok) := dtoi s2
        if ¬ ok ∨ n > 255 then none
        else if c > 1 ∧ s2.head? = some '0' then none
        else parseIPv4Aux fuel (s2.drop c) (acc ++ [n])

/-- Go `net.parseIPv4`, returning the 16-byte IPv4-in-IPv6 encoding that
`net.IPv4` produces. -/
def parseIPv4 (s : Str) : Option (List Nat) :=
  (parseIPv4Aux 4 s []).map (fun p => v4InV6Pre ++ p)

/-- Main loop of Go `net.parseIPv6`: returns the byte array, the fill index
`i`, the ellipsis position and the remaining string.  The index grows by at
least two per iteration so 16 units of fuel suffice for the `i < 16` loop. -/
def parseIPv6Loop : Nat → Str → List Nat → Nat → Option Nat →
    Option (List Nat × Nat × Option Nat × Str)
  | 0, s, ip, i, ell => some (ip, i, ell, s)
  | fuel + 1, s, ip, i, ell =>
    if i ≥ 16 then some (ip, i, ell, s)
    else
      let (n, c, ok) := xtoi s
      if ¬ ok ∨ n > 65535 then none
      else if c < s.length ∧ (s.drop c).head? = some '.' then
        if ell.isNone ∧ i ≠ 16 - 4 then none
        else if i + 4 > 16 then none
        else
          match parseIPv4 s with
          | none => none
          | some ip4 =>
            let ip := ((((ip.set i (ip4.getD 12 0)).set (i + 1)
              (ip4.getD 13 0)).set (i + 2) (ip4.getD 14 0)).set (i + 3)
              (ip4.getD 15 0))
            some (ip, i + 4, ell, [])
      else
        let ip := (ip.set i (n / 256)).set (i + 1) (n % 256)
        let i := i + 2
        let s := s.drop c
        if s.isEmpty then some (ip, i, ell, [])
        else if s.head? ≠ some ':' ∨ s.length = 1 then none
        else
          let s := s.drop 1
          if s.head? = some ':' then
            if ell.isSome then none
            else
              let s := s.drop 1
              if s.isEmpty then some (ip, i, some i, [])
              else parseIPv6Loop fuel s ip i (some i)
          else parseIPv6Loop fuel s ip i ell

/-- Go `net.parseIPv6`.  The in-place ellipsis expansion of the source is
rendered as the equivalent take/replicate/drop recombination. -/
def parseIPv6 (s : Str) : Option (List Nat) :=
  let ip0 : List Nat := List.replicate 16 0
  let start :=
    match s with
    | ':' :: ':' :: rest => (rest, (some 0 : Option Nat))
    | _ => (s, none)
  if start.2 = some 0 ∧ start.1.isEmpty then some ip0
  else
    match parseIPv6Loop 16 start.1 ip0 0 start.2 with
    | none => none
    | some (ip, i, ell, rest) =>
      if ¬ rest.isEmpty then none
      else if i < 16 then
        match ell with
        | none => none
        | some e =>
          some (ip.take e ++ List.replicate (16 - i) 0 ++
            ((ip.drop e).take (i - e)))
      else if ell.isSome then none
      else some ip

/-- Index of the last occurrence of `ch`, or -1 (Go `net.last`). -/
def lastIndexOfCh (ch : Char) (s : Str) : Int :=
  (s.foldl (fun (st : Int × Int) c =>
    (st.1 + 1, if c = ch then st.1 else st.2)) (0, -1)).2

/-- Go `net.splitHostZone`: split at the last percent sign if its index is
positive. -/
def splitHostZone (s : Str) : Str × Str :=
  let i := lastIndexOfCh '%' s
  if i > 0 then (s.take i.toNat, s.drop (i.toNat + 1)) else (s, [])

/-- Go `net.parseIPv6Zone`, with the zone discarded as `Load`'s callers do. -/
def parseIPv6Zone (s : Str) : Option (List Nat) :=
  parseIPv6 (splitHostZone s).1

/-- Go `net.IP.To4`: the 4-byte form of an address, when one exists. -/
def to4 (ip : List Nat) : Option (List Nat) :=
  if ip.length = 4 then some ip
  else if ip.length = 16 ∧ (ip.take 10).all (· = 0) ∧ ip.getD 10 0 = 255 ∧
      ip.getD 11 0 = 255 then
    some (ip.drop 12)
  else none

/-- Go `net.ParseCIDR`, returning only the parsed address (the first return
value, which is what `Load` consults via `To4`). -/
def parseCIDR (s : Str) : Option (List Nat) :=
  match List.findIdx? (fun c => c = '/') s with
  | none => none
  | some i =>
    let addr := s.take i
    let mask := s.drop (i + 1)
    let ipAndLen : Option (List Nat) × Nat :=
      match parseIPv4 addr with
      | some ip => (some ip, 4)
      | none => (parseIPv6Zone addr, 16)
    let (n, c, ok) := dtoi mask
    match ipAndLen.1 with
    | none => none
    | some ip =>
      if ¬ ok ∨ c ≠ mask.length ∨ n > 8 * ipAndLen.2 then none else some ip

/-- Go `net.ParseIP`: the first dot or colon decides the family. -/
def parseIP (s : Str) : Option (List Nat) :=
  match List.find? (fun c => c = '.' || c = ':') s with
  | some c => if c = '.' then parseIPv4 s else parseIPv6Zone s
  | none => none



/-!
Model of the `Peer` struct and the reflection-driven template merge and
defaulting of `Load`.  A peer is a finite map from field names to optional
values; `none` models a nil pointer.
-/

/-- Element kinds of the pointer-typed fields of `Peer`, as
`reflect.Kind` sees them. -/
inductive FKind
  | kString
  | kInt
  | kBool
  | kSlice
  | kMap
deriving DecidableEq

/-- Enumeration of the fields of the Go `Peer` struct, in declaration
order.  The reflection-driven loops of `Load` become walks over this type. -/
inductive PField
  | Template
  | Description
  | Disabled
  | ASN
  | NeighborIPs
  | Prepends
  | LocalPref
  | Multihop
  | Listen4
  | Listen6
  | LocalASN
  | LocalPort
  | NeighborPort
  | Passive
  | Direct
  | NextHopSelf
  | BFD
  | Password
  | RSClient
  | RRClient
  | RemovePrivateASNs
  | MPUnicast46
  | AllowLocalAS
  | AddPathTx
  | AddPathRx
  | ImportNextHop
  | ExportNextHop
  | Confederation
  | ConfederationMember
  | TTLSecurity
  | ImportCommunities
  | ExportCommunities
  | AnnounceCommunities
  | RemoveCommunities
  | RemoveAllCommunities
  | ASPrefs
  | ASSet
  | ImportLimit4
  | ImportLimit6
  | EnforceFirstAS
  | EnforcePeerNexthop
  | ForcePeerNexthop
  | MaxPrefixTripAction
  | AllowBlackholeCommunity
  | FilterIRR
  | FilterRPKI
  | FilterMaxPrefix
  | FilterBogonRoutes
  | FilterBogonASNs
  | FilterTransitASNs
  | FilterPrefixLength
  | FilterNeverViaRouteServers
  | AutoImportLimits
  | AutoASSet
  | HonorGracefulShutdown
  | Prefixes
  | AnnounceDefault
  | AnnounceOriginated
  | SessionGlobal
  | PreImport
  | PreExport
  | PreImportFinal
  | PreExportFinal
  | OptimizerProbeSources
  | OptimizeInbound
  | ProtocolName
  | Protocols
  | PrefixSet4
  | PrefixSet6
  | ImportStandardCommunities
  | ImportLargeCommunities
  | ExportStandardCommunities
  | ExportLargeCommunities
  | AnnounceStandardCommunities
  | AnnounceLargeCommunities
  | RemoveStandardCommunities
  | RemoveLargeCommunities
  | BooleanOptions
deriving DecidableEq

/-- The fields of `Peer` in struct declaration order, as Go reflection
enumerates them. -/
def allFields : List PField := [
  PField.Template,
  PField.Description,
  PField.Disabled,
  PField.ASN,
  PField.NeighborIPs,
  PField.Prepends,
  PField.LocalPref,
  PField.Multihop,
  PField.Listen4,
  PField.Listen6,
  PField.LocalASN,
  PField.LocalPort,
  PField.NeighborPort,
  PField.Passive,
  PField.Direct,
  PField.NextHopSelf,
  PField.BFD,
  PField.Password,
  PField.RSClient,
  PField.RRClient,
  PField.RemovePrivateASNs,
  PField.MPUnicast46,
  PField.AllowLocalAS,
  PField.AddPathTx,
  PField.AddPathRx,
  PField.ImportNextHop,
  PField.ExportNextHop,
  PField.Confederation,
  PField.ConfederationMember,
  PField.TTLSecurity,
  PField.ImportCommunities,
  PField.ExportCommunities,
  PField.AnnounceCommunities,
  PField.RemoveCommunities,
  PField.RemoveAllCommunities,
  PField.ASPrefs,
  PField.ASSet,
  PField.ImportLimit4,
  PField.ImportLimit6,
  PField.EnforceFirstAS,
  PField.EnforcePeerNexthop,
  PField.ForcePeerNexthop,
  PField.MaxPrefixTripAction,
  PField.AllowBlackholeCommunity,
  PField.FilterIRR,
  PField.FilterRPKI,
  PField.FilterMaxPrefix,
  PField.FilterBogonRoutes,
  PField.FilterBogonASNs,
  PField.FilterTransitASNs,
  PField.FilterPrefixLength,
  PField.FilterNeverViaRouteServers,
  PField.AutoImportLimits,
  PField.AutoASSet,
  PField.HonorGracefulShutdown,
  PField.Prefixes,
  PField.AnnounceDefault,
  PField.AnnounceOriginated,
  PField.SessionGlobal,
  PField.PreImport,
  PField.PreExport,
  PField.PreImportFinal,
  PField.PreExportFinal,
  PField.OptimizerProbeSources,
  PField.OptimizeInbound,
  PField.ProtocolName,
  PField.Protocols,
  PField.PrefixSet4,
  PField.PrefixSet6,
  PField.ImportStandardCommunities,
  PField.ImportLargeCommunities,
  PField.ExportStandardCommunities,
  PField.ExportLargeCommunities,
  PField.AnnounceStandardCommunities,
  PField.AnnounceLargeCommunities,
  PField.RemoveStandardCommunities,
  PField.RemoveLargeCommunities,
  PField.BooleanOptions
]

/-- Element kind of each (pointer-typed) field of `Peer`. -/
def peerKind : PField → FKind
  | .Template => .kString
  | .Description => .kString
  | .Disabled => .kBool
  | .ASN => .kInt
  | .NeighborIPs => .kSlice
  | .Prepends => .kInt
  | .LocalPref => .kInt
  | .Multihop => .kBool
  | .Listen4 => .kString
  | .Listen6 => .kString
  | .LocalASN => .kInt
  | .LocalPort => .kInt
  | .NeighborPort => .kInt
  | .Passive => .kBool
  | .Direct => .kBool
  | .NextHopSelf => .kBool
  | .BFD => .kBool
  | .Password => .kString
  | .RSClient => .kBool
  | .RRClient => .kBool
  | .RemovePrivateASNs => .kBool
  | .MPUnicast46 => .kBool
  | .AllowLocalAS => .kBool
  | .AddPathTx => .kBool
  | .AddPathRx => .kBool
  | .ImportNextHop => .kString
  | .ExportNextHop => .kString
  | .Confederation => .kInt
  | .ConfederationMember => .kBool
  | .TTLSecurity => .kBool
  | .ImportCommunities => .kSlice
  | .ExportCommunities => .kSlice
  | .AnnounceCommunities => .kSlice
  | .RemoveCommunities => .kSlice
  | .RemoveAllCommunities => .kInt
  | .ASPrefs => .kMap
  | .ASSet => .kString
  | .ImportLimit4 => .kInt
  | .ImportLimit6 => .kInt
  | .EnforceFirstAS => .kBool
  | .EnforcePeerNexthop => .kBool
  | .ForcePeerNexthop => .kBool
  | .MaxPrefixTripAction => .kString
  | .AllowBlackholeCommunity => .kBool
  | .FilterIRR => .kBool
  | .FilterRPKI => .kBool
  | .FilterMaxPrefix => .kBool
  | .FilterBogonRoutes => .kBool
  | .FilterBogonASNs => .kBool
  | .FilterTransitASNs => .kBool
  | .FilterPrefixLength => .kBool
  | .FilterNeverViaRouteServers => .kBool
  | .AutoImportLimits => .kBool
  | .AutoASSet => .kBool
  | .HonorGracefulShutdown => .kBool
  | .Prefixes => .kSlice
  | .AnnounceDefault => .kBool
  | .AnnounceOriginated => .kBool
  | .SessionGlobal => .kString
  | .PreImport => .kString
  | .PreExport => .kString
  | .PreImportFinal => .kString
  | .PreExportFinal => .kString
  | .OptimizerProbeSources => .kSlice
  | .OptimizeInbound => .kBool
  | .ProtocolName => .kString
  | .Protocols => .kSlice
  | .PrefixSet4 => .kSlice
  | .PrefixSet6 => .kSlice
  | .ImportStandardCommunities => .kSlice
  | .ImportLargeCommunities => .kSlice
  | .ExportStandardCommunities => .kSlice
  | .ExportLargeCommunities => .kSlice
  | .AnnounceStandardCommunities => .kSlice
  | .AnnounceLargeCommunities => .kSlice
  | .RemoveStandardCommunities => .kSlice
  | .RemoveLargeCommunities => .kSlice
  | .BooleanOptions => .kSlice

/-- The `default` struct tag of each field of `Peer`. -/
def peerDefault : PField → Str
  | .Template => str "-"
  | .Description => str "-"
  | .Disabled => str "false"
  | .ASN => str "0"
  | .NeighborIPs => str "-"
  | .Prepends => str "0"
  | .LocalPref => str "100"
  | .Multihop => str "false"
  | .Listen4 => str "-"
  | .Listen6 => str "-"
  | .LocalASN => str "-"
  | .LocalPort => str "179"
  | .NeighborPort => str "179"
  | .Passive => str "false"
  | .Direct => str "false"
  | .NextHopSelf => str "false"
  | .BFD => str "false"
  | .Password => str "-"
  | .RSClient => str "false"
  | .RRClient => str "false"
  | .RemovePrivateASNs => str "true"
  | .MPUnicast46 => str "false"
  | .AllowLocalAS => str "false"
  | .AddPathTx => str "false"
  | .AddPathRx => str "false"
  | .ImportNextHop => str "-"
  | .ExportNextHop => str "-"
  | .Confederation => str "-"
  | .ConfederationMember => str "false"
  | .TTLSecurity => str "false"
  | .ImportCommunities => str "-"
  | .ExportCommunities => str "-"
  | .AnnounceCommunities => str "-"
  | .RemoveCommunities => str "-"
  | .RemoveAllCommunities => str "-"
  | .ASPrefs => str "-"
  | .ASSet => str "-"
  | .ImportLimit4 => str "1000000"
  | .ImportLimit6 => str "200000"
  | .EnforceFirstAS => str "true"
  | .EnforcePeerNexthop => str "true"
  | .ForcePeerNexthop => str "false"
  | .MaxPrefixTripAction => str "disable"
  | .AllowBlackholeCommunity => str "false"
  | .FilterIRR => str "false"
  | .FilterRPKI => str "true"
  | .FilterMaxPrefix => str "true"
  | .FilterBogonRoutes => str "true"
  | .FilterBogonASNs => str "true"
  | .FilterTransitASNs => str "false"
  | .FilterPrefixLength => str "true"
  | .FilterNeverViaRouteServers => str "false"
  | .AutoImportLimits => str "false"
  | .AutoASSet => str "false"
  | .HonorGracefulShutdown => str "true"
  | .Prefixes => str "-"
  | .AnnounceDefault => str "false"
  | .AnnounceOriginated => str "true"
  | .SessionGlobal => str "-"
  | .PreImport => str "-"
  | .PreExport => str "-"
  | .PreImportFinal => str "-"
  | .PreExportFinal => str "-"
  | .OptimizerProbeSources => str "-"
  | .OptimizeInbound => str "false"
  | .ProtocolName => str "-"
  | .Protocols => str "-"
  | .PrefixSet4 => str "-"
  | .PrefixSet6 => str "-"
  | .ImportStandardCommunities => str "-"
  | .ImportLargeCommunities => str "-"
  | .ExportStandardCommunities => str "-"
  | .ExportLargeCommunities => str "-"
  | .AnnounceStandardCommunities => str "-"
  | .AnnounceLargeCommunities => str "-"
  | .RemoveStandardCommunities => str "-"
  | .RemoveLargeCommunities => str "-"
  | .BooleanOptions => str "-"

/-- The `yaml` struct tag of each field of `Peer`. -/
def yamlTag : PField → Str
  | .Template => str "template"
  | .Description => str "description"
  | .Disabled => str "disabled"
  | .ASN => str "asn"
  | .NeighborIPs => str "neighbors"
  | .Prepends => str "prepends"
  | .LocalPref => str "local-pref"
  | .Multihop => str "multihop"
  | .Listen4 => str "listen4"
  | .Listen6 => str "listen6"
  | .LocalASN => str "local-asn"
  | .LocalPort => str "local-port"
  | .NeighborPort => str "neighbor-port"
  | .Passive => str "passive"
  | .Direct => str "direct"
  | .NextHopSelf => str "next-hop-self"
  | .BFD => str "bfd"
  | .Password => str "password"
  | .RSClient => str "rs-client"
  | .RRClient => str "rr-client"
  | .RemovePrivateASNs => str "remove-private-asns"
  | .MPUnicast46 => str "mp-unicast-46"
  | .AllowLocalAS => str "allow-local-as"
  | .AddPathTx => str "add-path-tx"
  | .AddPathRx => str "add-path-rx"
  | .ImportNextHop => str "import-next-hop"
  | .ExportNextHop => str "export-next-hop"
  | .Confederation => str "confederation"
  | .ConfederationMember => str "confederation-member"
  | .TTLSecurity => str "ttl-security"
  | .ImportCommunities => str "import-communities"
  | .ExportCommunities => str "export-communities"
  | .AnnounceCommunities => str "announce-communities"
  | .RemoveCommunities => str "remove-communities"
  | .RemoveAllCommunities => str "remove-all-communities"
  | .ASPrefs => str "as-prefs"
  | .ASSet => str "as-set"
  | .ImportLimit4 => str "import-limit4"
  | .ImportLimit6 => str "import-limit6"
  | .EnforceFirstAS => str "enforce-first-as"
  | .EnforcePeerNexthop => str "enforce-peer-nexthop"
  | .ForcePeerNexthop => str "force-peer-nexthop"
  | .MaxPrefixTripAction => str "max-prefix-action"
  | .AllowBlackholeCommunity => str "allow-blackhole-community"
  | .FilterIRR => str "filter-irr"
  | .FilterRPKI => str "filter-rpki"
  | .FilterMaxPrefix => str "filter-max-prefix"
  | .FilterBogonRoutes => str "filter-bogon-routes"
  | .FilterBogonASNs => str "filter-bogon-asns"
  | .FilterTransitASNs => str "filter-transit-asns"
  | .FilterPrefixLength => str "filter-prefix-length"
  | .FilterNeverViaRouteServers => str "filter-never-via-route-servers"
  | .AutoImportLimits => str "auto-import-limits"
  | .AutoASSet => str "auto-as-set"
  | .HonorGracefulShutdown => str "honor-graceful-shutdown"
  | .Prefixes => str "prefixes"
  | .AnnounceDefault => str "announce-default"
  | .AnnounceOriginated => str "announce-originated"
  | .SessionGlobal => str "session-global"
  | .PreImport => str "pre-import"
  | .PreExport => str "pre-export"
  | .PreImportFinal => str "pre-import-final"
  | .PreExportFinal => str "pre-export-final"
  | .OptimizerProbeSources => str "probe-sources"
  | .OptimizeInbound => str "optimize-inbound"
  | .ProtocolName => str "-"
  | .Protocols => str "-"
  | .PrefixSet4 => str "-"
  | .PrefixSet6 => str "-"
  | .ImportStandardCommunities => str "-"
  | .ImportLargeCommunities => str "-"
  | .ExportStandardCommunities => str "-"
  | .ExportLargeCommunities => str "-"
  | .AnnounceStandardCommunities => str "-"
  | .AnnounceLargeCommunities => str "-"
  | .RemoveStandardCommunities => str "-"
  | .RemoveLargeCommunities => str "-"
  | .BooleanOptions => str "-"

/-- A field value: Go `*string`, `*int`, `*bool`, `*[]string` or
`*map[uint32]uint32` contents. -/
inductive FVal
  | s (v : Str)
  | i (v : Int)
  | b (v : Bool)
  | sl (v : List Str)
  | m (v : List (Nat × Nat))
deriving DecidableEq

/-- A peer document: each field is either unset (nil pointer) or set. -/
abbrev Peer0 := PField → Option FVal

/-- Set one field of a peer. -/
def updPeer (p : Peer0) (f : PField) (v : Option FVal) : Peer0 :=
  fun g => if g = f then v else p g

/-- The peer with every field unset. -/
def emptyPeer : Peer0 := fun _ => none

/-- Failure of `Load`: `err` models a returned non-nil `error`, `fatal`
models `log.Fatalf` (the process exits without returning). -/
inductive LoadError
  | err (msg : Str)
  | fatal (msg : Str)
deriving DecidableEq

/-- First-match lookup in an association list (Go map indexing). -/
def lookupAssoc {A : Type} (l : List (Str × A)) (k : Str) : Option A :=
  match l.find? (fun nt => nt.1 == k) with
  | some nt => some nt.2
  | none => none

/-- The per-field template merge of `Load` (config.go:347-363): for every
field except `Template`, if the template has a value configured and the peer
has not, the peer takes the template value. -/
def mergeTemplate (p tmpl : Peer0) : Peer0 :=
  fun f =>
    if f = PField.Template then p f
    else
      match p f, tmpl f with
      | none, some v => some v
      | pv, _ => pv

/-- The template-assignment step of `Load` (config.go:339-364): when the peer
names a template, look it up (missing template is fatal) and merge.  The
`some _` branch is unreachable for Go-typed input, where `Template` is a
string pointer. -/
def mergeStep (templates : List (Str × Peer0)) (p : Peer0) :
    Except LoadError Peer0 :=
  match p PField.Template with
  | some (.s t) =>
    if t.isEmpty then .ok p
    else
      match lookupAssoc templates t with
      | none => .error (.fatal (str "Template " ++ t ++ str " not found"))
      | some tmpl => .ok (mergeTemplate p tmpl)
  | some _ => .error (.fatal (str "Template field is not a string"))
  | none => .ok p

/-- One iteration of the defaulting loop of `Load` (config.go:369-412),
generic in the schema (`dtag` = default tags, `knd` = field kinds): an empty
default tag is a fatal schema error; tag "-" means no default; an unset
field of string/int/bool kind receives its parsed default; slice kinds are
ignored; map kinds fall into the fatal `Unknown kind` branch of the Go
switch; a set field of bool kind records its yaml tag in the boolean-options
accumulator. -/
def defaultStep (dtag : PField → Str) (knd : PField → FKind)
    (p : Peer0) (opts : List Str) (f : PField) :
    Except LoadError (Peer0 × List Str) :=
  let d := dtag f
  if d.isEmpty then
    .error (.fatal (str "Code error: field has no default value"))
  else if d ≠ str "-" then
    match p f with
    | none =>
      match knd f with
      | .kString => .ok (updPeer p f (some (.s d)), opts)
      | .kInt =>
        match goAtoi d with
        | some n => .ok (updPeer p f (some (.i n)), opts)
        | none => .error (.fatal (str "Cant convert default to uint"))
      | .kBool =>
        match goParseBool d with
        | some b => .ok (updPeer p f (some (.b b)), opts)
        | none => .error (.fatal (str "Cant parse bool"))
      | .kSlice => .ok (p, opts)
      | .kMap => .error (.fatal (str "Unknown kind"))
    | some _ =>
      if knd f = FKind.kBool then .ok (p, opts ++ [yamlTag f])
      else .ok (p, opts)
  else .ok (p, opts)

/-- The defaulting loop over a list of fields, threading the peer and the
boolean-options accumulator. -/
def setDefaultsAux (dtag : PField → Str) (knd : PField → FKind) :
    List PField → Peer0 → List Str → Except LoadError (Peer0 × List Str)
  | [], p, opts => .ok (p, opts)
  | f :: rest, p, opts =>
    match defaultStep dtag knd p opts f with
    | .error e => .error e
    | .ok po => setDefaultsAux dtag knd rest po.1 po.2

/-- The whole defaulting pass of `Load` over the fields of `Peer`. -/
def setDefaults (dtag : PField → Str) (knd : PField → FKind) (p : Peer0) :
    Except LoadError (Peer0 × List Str) :=
  setDefaultsAux dtag knd allFields p []

/-- First per-peer pass of `Load` (config.go:323-413): protocol name, the
`QueryNVRS` flag, the neighbor-presence check, boolean-options
initialization, template merge and defaulting, in source order.  The
`some _` neighbor branch is unreachable for Go-typed input. -/
def phase1Peer (sanitize : Str → Str) (templates : List (Str × Peer0))
    (name : Str) (p : Peer0) (nvrs : Bool) :
    Except LoadError (Peer0 × Bool) :=
  let p1 := updPeer p PField.ProtocolName (some (.s (sanitize name)))
  let nvrs2 := if (p1 PField.FilterNeverViaRouteServers).isSome then true
    else nvrs
  match p1 PField.NeighborIPs with
  | some (.sl nb) =>
    if nb.length < 1 then
      .error (.fatal (str "[" ++ name ++ str "] has no neighbors defined"))
    else
      let p2 := updPeer p1 PField.BooleanOptions (some (.sl []))
      match mergeStep templates p2 with
      | .error e => .error e
      | .ok p3 =>
        match setDefaults peerDefault peerKind p3 with
        | .error e => .error e
        | .ok po =>
          .ok (updPeer po.1 PField.BooleanOptions (some (.sl po.2)), nvrs2)
  | some _ => .error (.fatal (str "neighbors field is not a string list"))
  | none =>
    .error (.fatal (str "[" ++ name ++ str "] has no neighbors defined"))

/-- The first pass over all peers, threading the `QueryNVRS` flag. -/
def processPeers1 (sanitize : Str → Str) (templates : List (Str × Peer0)) :
    List (Str × Peer0) → Bool → Except LoadError (List (Str × Peer0) × Bool)
  | [], nvrs => .ok ([], nvrs)
  | np :: rest, nvrs =>
    match phase1Peer sanitize templates np.1 np.2 nvrs with
    | .error e => .error e
    | .ok pb =>
      match processPeers1 sanitize templates rest pb.2 with
      | .error e => .error e
      | .ok rb => .ok ((np.1, pb.1) :: rb.1, rb.2)



/-!
Second per-peer pass and global steps of `Load`: address-family
partitioning, community categorization, static/BFD/VRRP/RTR handling and the
announce-originated normalization.
-/

/-- View a field value as an optional string list.  For Go-typed input the
slice-valued fields can hold nothing else. -/
def asSL (v : Option FVal) : Option (List Str) :=
  match v with
  | some (.sl l) => some l
  | _ => none

/-- The community-categorization loop of `Load` (config.go:544-618, also
433-451): standard tokens are appended verbatim to the standard list, large
tokens are appended with the separators rewritten, the first invalid token
aborts with an error naming it.  `none` models a nil output slice that has
not been lazily initialized yet. -/
def walkCommunities (errPre : Str) :
    List Str → Option (List Str) → Option (List Str) →
    Except LoadError (Option (List Str) × Option (List Str))
  | [], std, lrg => .ok (std, lrg)
  | t :: rest, std, lrg =>
    let ct := categorizeCommunity t
    if ct = strStandard then
      walkCommunities errPre rest (some (std.getD [] ++ [t])) lrg
    else if ct = strLarge then
      walkCommunities errPre rest std
        (some (lrg.getD [] ++ [replaceColonComma t]))
    else .error (.err (errPre ++ t))

/-- The global origin-prefix partition of `Load` (config.go:416-427). -/
def partitionPfx (errPre : Str) :
    List Str → List Str → List Str → Except LoadError (List Str × List Str)
  | [], acc4, acc6 => .ok (acc4, acc6)
  | pfx :: rest, acc4, acc6 =>
    match parseCIDR pfx with
    | none => .error (.err (errPre ++ pfx))
    | some ip =>
      if (to4 ip).isNone then partitionPfx errPre rest acc4 (acc6 ++ [pfx])
      else partitionPfx errPre rest (acc4 ++ [pfx]) acc6

/-- The per-peer accept-prefix partition of `Load` (config.go:520-541), with
lazily initialized output slices. -/
def walkPeerPfx :
    List Str → Option (List Str) → Option (List Str) →
    Except LoadError (Option (List Str) × Option (List Str))
  | [], s4, s6 => .ok (s4, s6)
  | pfx :: rest, s4, s6 =>
    match parseCIDR pfx with
    | none => .error (.err (str "Invalid prefix: " ++ pfx))
    | some ip =>
      if (to4 ip).isNone then walkPeerPfx rest s4 (some (s6.getD [] ++ [pfx]))
      else walkPeerPfx rest (some (s4.getD [] ++ [pfx])) s6

/-- Prefix-set construction for one peer. -/
def applyPfxSets (p : Peer0) : Except LoadError Peer0 :=
  match p PField.Prefixes with
  | some (.sl l) =>
    match walkPeerPfx l (asSL (p PField.PrefixSet4))
        (asSL (p PField.PrefixSet6)) with
    | .error e => .error e
    | .ok s46 =>
      .ok (updPeer (updPeer p PField.PrefixSet4 (s46.1.map FVal.sl))
        PField.PrefixSet6 (s46.2.map FVal.sl))
  | _ => .ok p

/-- Community categorization for one community-list field of one peer,
writing the standard/large output fields. -/
def applyCommField (src stdF lrgF : PField) (errPre : Str) (p : Peer0) :
    Except LoadError Peer0 :=
  match p src with
  | some (.sl l) =>
    match walkCommunities errPre l (asSL (p stdF)) (asSL (p lrgF)) with
    | .error e => .error e
    | .ok sl2 =>
      .ok (updPeer (updPeer p stdF (sl2.1.map FVal.sl)) lrgF
        (sl2.2.map FVal.sl))
  | _ => .ok p

/-- The originated-prefix consistency normalization (config.go:621-624):
with no global origin prefixes, a peer with announce-originated enabled is
silently switched off.  After defaulting the field is always a set boolean;
the catch-all branch models the nil dereference that Go would otherwise
perform. -/
def applyAnnounceOriginated (globalPfxs : List Str) (p : Peer0) :
    Except LoadError Peer0 :=
  if globalPfxs.length < 1 then
    match p PField.AnnounceOriginated with
    | some (.b true) =>
      .ok (updPeer p PField.AnnounceOriginated (some (.b false)))
    | some (.b false) => .ok p
    | _ => .error (.fatal (str "nil pointer dereference"))
  else .ok p

/-- Second per-peer pass of `Load` (config.go:518-625), in source order. -/
def phase2Peer (globalPfxs : List Str) (p : Peer0) : Except LoadError Peer0 :=
  (applyPfxSets p).bind fun p1 =>
  (applyCommField PField.ImportCommunities PField.ImportStandardCommunities
    PField.ImportLargeCommunities (str "Invalid import community: ") p1).bind
    fun p2 =>
  (applyCommField PField.ExportCommunities PField.ExportStandardCommunities
    PField.ExportLargeCommunities (str "Invalid export community: ") p2).bind
    fun p3 =>
  (applyCommField PField.AnnounceCommunities
    PField.AnnounceStandardCommunities PField.AnnounceLargeCommunities
    (str "Invalid announce community: ") p3).bind fun p4 =>
  (applyCommField PField.RemoveCommunities PField.RemoveStandardCommunities
    PField.RemoveLargeCommunities (str "Invalid remove community: ") p4).bind
    fun p5 =>
  applyAnnounceOriginated globalPfxs p5

/-- The second pass over all peers. -/
def processPeers2 (globalPfxs : List Str) :
    List (Str × Peer0) → Except LoadError (List (Str × Peer0))
  | [] => .ok []
  | np :: rest =>
    (phase2Peer globalPfxs np.2).bind fun p2 =>
    (processPeers2 globalPfxs rest).bind fun r2 => .ok ((np.1, p2) :: r2)

/-- The template sanity check of `Load` (config.go:307-312): a template with
a non-empty template reference is fatal, before any peer is processed. -/
def checkTemplates : List (Str × Peer0) → Except LoadError Unit
  | [] => .ok ()
  | nt :: rest =>
    match nt.2 PField.Template with
    | some (.s t) =>
      if ¬ t.isEmpty then
        .error (.fatal
          (str "Templates must not have a template field set, but " ++
            nt.1 ++ str " does"))
      else checkTemplates rest
    | some _ => .error (.fatal (str "Template field is not a string"))
    | none => checkTemplates rest

/-- The static-route partition of `Load` (config.go:454-468). -/
def partitionStatics :
    List (Str × Str) → List (Str × Str) → List (Str × Str) →
    Except LoadError (List (Str × Str) × List (Str × Str))
  | [], a4, a6 => .ok (a4, a6)
  | pn :: rest, a4, a6 =>
    match parseCIDR pn.1 with
    | none => .error (.err (str "Invalid static prefix: " ++ pn.1))
    | some ip =>
      if (parseIP pn.2).isNone then
        .error (.err (str "Invalid static nexthop: " ++ pn.2))
      else if (to4 ip).isNone then partitionStatics rest a4 (a6 ++ [pn])
      else partitionStatics rest (a4 ++ [pn]) a6

/-- A BFD instance: only the fields `Load` touches. -/
structure BFDInst where
  neighbor : Option Str
  protocolName : Option Str

/-- The BFD pass of `Load` (config.go:471-476).  Go dereferences the
neighbor pointer unconditionally; a nil neighbor is modelled as the fatal
outcome of that nil dereference. -/
def processBFD (sanitize : Str → Str) :
    List (Str × BFDInst) → Except LoadError (List (Str × BFDInst))
  | [] => .ok []
  | nb :: rest =>
    match nb.2.neighbor with
    | none => .error (.fatal (str "nil pointer dereference"))
    | some nbr =>
      if (parseIP nbr).isNone then
        .error (.err (str "invalid BFD neighbor " ++ nbr))
      else
        (processBFD sanitize rest).bind fun r =>
          .ok ((nb.1,
            { neighbor := some nbr,
              protocolName := some (sanitize nb.1) }) :: r)

/-- A VRRP instance: only the fields `Load` touches. -/
structure VRRPInst where
  state : Str
  vips : List Str
  vips4 : List Str
  vips6 : List Str

/-- The VIP partition of one VRRP instance (config.go:481-492). -/
def partitionVIPs :
    List Str → List Str → List Str → Except LoadError (List Str × List Str)
  | [], a4, a6 => .ok (a4, a6)
  | vip :: rest, a4, a6 =>
    match parseCIDR vip with
    | none => .error (.err (str "Invalid VIP: " ++ vip))
    | some ip =>
      if (to4 ip).isNone then partitionVIPs rest a4 (a6 ++ [vip])
      else partitionVIPs rest (a4 ++ [vip]) a6

/-- The VRRP pass of `Load` (config.go:479-502). -/
def processVRRP : List VRRPInst → Except LoadError (List VRRPInst)
  | [] => .ok []
  | v :: rest =>
    (partitionVIPs v.vips v.vips4 v.vips6).bind fun a46 =>
    (if v.state = str "primary" then Except.ok (str "MASTER")
     else if v.state = str "backup" then Except.ok (str "BACKUP")
     else .error (.err
       (str "VRRP state must be primary or backup, unexpected " ++
         v.state))).bind fun st =>
    (processVRRP rest).bind fun r =>
    .ok ({ state := st, vips := v.vips, vips4 := a46.1,
           vips6 := a46.2 } :: r)

/-- The RTR endpoint parse of `Load` (config.go:505-516): `host:port` with a
numeric port, skipped entirely when the endpoint string is empty. -/
def parseRTR (rtrServer : Str) : Except LoadError (Str × Int) :=
  if rtrServer.isEmpty then .ok ([], 0)
  else
    match splitOnChar ':' rtrServer with
    | [h, pstr] =>
      match goAtoi pstr with
      | some n => .ok (h, n)
      | none => .error (.fatal (str "Invalid RTR server port " ++ pstr))
    | _ => .error (.fatal (str "Invalid rtr-server format should be hostport"))

/-- The configuration document: the `Config` fields that `Load` reads or
writes.  The fields from `prefixes4` on are internal (yaml tag "-"); the
unmarshaller cannot set them, and `load` computes them afresh. -/
structure Conf where
  hostname : Str
  asn : Int
  routerID : Str
  prefixes : List Str
  rtrServer : Str
  srdCommunities : List Str
  statics : List (Str × Str)
  peers : List (Str × Peer0)
  templates : List (Str × Peer0)
  bfdInstances : List (Str × BFDInst)
  vrrpInstances : List VRRPInst
  prefixes4 : List Str
  prefixes6 : List Str
  srdStandardCommunities : Option (List Str)
  srdLargeCommunities : Option (List Str)
  statics4 : List (Str × Str)
  statics6 : List (Str × Str)
  rtrServerHost : Str
  rtrServerPort : Int
  queryNVRS : Bool

/-- Embedding of `Load` (config.go:291-628) from the already unmarshalled
document.  YAML decoding itself is outside the model; the validator step is
the part of `validate.Struct` that can fire (the two `required` fields of
`Config` reachable without a `dive` tag).  `sanitize` stands for
`util.Sanitize`, whose source is outside this tree, and `sysHostname` for
`os.Hostname`. -/
def load (sanitize : Str → Str) (sysHostname : Option Str) (c0 : Conf) :
    Except LoadError Conf :=
  if c0.asn = 0 ∨ c0.routerID.isEmpty then
    .error (.err (str "Validation: required field missing"))
  else
  (checkTemplates c0.templates).bind fun _ =>
  (if c0.hostname.isEmpty then
    match sysHostname with
    | some h => Except.ok h
    | none => .error (.fatal
        (str "Hostname is not defined and unable to get system hostname"))
   else Except.ok c0.hostname).bind fun hstname =>
  (processPeers1 sanitize c0.templates c0.peers false).bind fun peersNv =>
  (partitionPfx (str "Invalid origin prefix: ") c0.prefixes [] []).bind
    fun p46 =>
  (walkCommunities (str "Invalid SRD community: ") c0.srdCommunities none
    none).bind fun srd =>
  (partitionStatics c0.statics [] []).bind fun s46 =>
  (processBFD sanitize c0.bfdInstances).bind fun bfd =>
  (processVRRP c0.vrrpInstances).bind fun vrrp =>
  (parseRTR c0.rtrServer).bind fun hp =>
  (processPeers2 c0.prefixes peersNv.1).bind fun peers2 =>
  .ok { c0 with
    hostname := hstname
    peers := peers2
    bfdInstances := bfd
    vrrpInstances := vrrp
    prefixes4 := p46.1
    prefixes6 := p46.2
    srdStandardCommunities := srd.1
    srdLargeCommunities := srd.2
    statics4 := s46.1
    statics6 := s46.2
    rtrServerHost := hp.1
    rtrServerPort := hp.2
    queryNVRS := peersNv.2 }



set_option maxRecDepth 10000


/-- Address-family classification of one CIDR string, exactly as the
partition loops of `Load` decide it: v4 when the parsed address has a 4-byte
form. -/
def isV4Str (p : Str) : Bool :=
  match parseCIDR p with
  | some ip => (to4 ip).isSome
  | none => false

/-- Tokens of `l` that the classifier marks standard, in input order. -/
def stdToks (l : List Str) : List Str :=
  l.filter (fun t => categorizeCommunity t == strStandard)

/-- Tokens of `l` that the classifier marks large, in input order, with the
colon separators rewritten to commas. -/
def lrgToks (l : List Str) : List Str :=
  (l.filter (fun t => categorizeCommunity t == strLarge)).map replaceColonComma

/-- Appending to a lazily initialized slice: `none` models a nil slice that
stays nil when nothing is appended. -/
def lazyAppend (acc : Option (List Str)) (new : List Str) :
    Option (List Str) :=
  if acc = none ∧ new = [] then none else some (acc.getD [] ++ new)


/-- Decidable equality for `Except` results with decidable components. -/
instance exceptDecEq {E A : Type} [DecidableEq E] [DecidableEq A] :
    DecidableEq (Except E A) := fun x y =>
  match x, y with
  | .ok a, .ok b =>
    if h : a = b then isTrue (by rw [h]) else isFalse (by simp [h])
  | .error a, .error b =>
    if h : a = b then isTrue (by rw [h]) else isFalse (by simp [h])
  | .ok _, .error _ => isFalse (by simp)
  | .error _, .ok _ => isFalse (by simp)

/-!
Concrete configurations used to witness the theorems below.
-/

/-- Build a peer document from an explicit field assignment list. -/
def mkPeer (l : List (PField × FVal)) : Peer0 :=
  fun f => (l.find? (fun x => x.1 == f)).map (fun x => x.2)

/-- A minimal global document: every list empty, required fields set. -/
def baseConf : Conf where
  hostname := str "h"
  asn := 65000
  routerID := str "192.0.2.1"
  prefixes := []
  rtrServer := []
  srdCommunities := []
  statics := []
  peers := []
  templates := []
  bfdInstances := []
  vrrpInstances := []
  prefixes4 := []
  prefixes6 := []
  srdStandardCommunities := none
  srdLargeCommunities := none
  statics4 := []
  statics6 := []
  rtrServerHost := []
  rtrServerPort := 0
  queryNVRS := false

/-- Read one field of one resolved peer out of a load result. -/
def getPeerField (r : Except LoadError Conf) (name : Str) (f : PField) :
    Option FVal :=
  match r with
  | .ok c =>
    match lookupAssoc c.peers name with
    | some p => p f
    | none => none
  | .error _ => none

/-- A plain peer with a neighbor and an ASN. -/
def peerBasic : Peer0 := mkPeer
  [(PField.NeighborIPs, FVal.sl [str "192.0.2.2"]),
   (PField.ASN, FVal.i 65001)]

/-- One-peer document built from `peerBasic`. -/
def confBasic : Conf := { baseConf with peers := [(str "peer1", peerBasic)] }

/-- A template setting the local preference. -/
def tplMerge : Peer0 := mkPeer [(PField.LocalPref, FVal.i 42)]

/-- A peer referencing `tplMerge` and explicitly setting its ASN. -/
def peerMerge : Peer0 := mkPeer
  [(PField.Template, FVal.s (str "t")),
   (PField.ASN, FVal.i 7),
   (PField.NeighborIPs, FVal.sl [str "192.0.2.9"])]

/-- A peer with a template reference but no neighbor addresses. -/
def peerNoNeighbors : Peer0 := mkPeer
  [(PField.Template, FVal.s (str "t")),
   (PField.ASN, FVal.i 65001)]

/-- A template that does provide neighbor addresses. -/
def tplNeighbors : Peer0 := mkPeer
  [(PField.NeighborIPs, FVal.sl [str "192.0.2.3"])]

/-- Document for the merge-order scenario: the peer has no neighbors of its
own, its template has some. -/
def confNoNeighbors : Conf :=
  { baseConf with
    peers := [(str "p", peerNoNeighbors)]
    templates := [(str "t", tplNeighbors)] }

/-- A template that itself references a template. -/
def tplSelfRef : Peer0 := mkPeer [(PField.Template, FVal.s (str "other"))]

/-- Document with a template-referencing template and an ordinary peer. -/
def confTplRef : Conf :=
  { baseConf with
    peers := [(str "p", peerBasic)]
    templates := [(str "bad", tplSelfRef)] }

/-- A peer that explicitly enables announce-originated. -/
def peerAnnounce : Peer0 := mkPeer
  [(PField.NeighborIPs, FVal.sl [str "192.0.2.2"]),
   (PField.ASN, FVal.i 65001),
   (PField.AnnounceOriginated, FVal.b true)]

/-- Document with no global origin prefixes and `peerAnnounce`. -/
def confAnnounce : Conf :=
  { baseConf with peers := [(str "p", peerAnnounce)] }

/-- A peer that explicitly sets filter-never-via-route-servers to false. -/
def peerNVRS : Peer0 := mkPeer
  [(PField.NeighborIPs, FVal.sl [str "192.0.2.2"]),
   (PField.ASN, FVal.i 65001),
   (PField.FilterNeverViaRouteServers, FVal.b false)]

/-- Document whose only peer explicitly sets the NVRS filter field. -/
def confNVRS : Conf :=
  { baseConf with peers := [(str "p", peerNVRS)] }


/-!
Lemmas about `splitOnChar` and `goAtoi`, leading to the specification of the
community classifier.
-/


theorem exceptBind_ok {E A B : Type} (x : Except E A) (f : A → Except E B)
    (b : B) (h : x.bind f = .ok b) : ∃ a, x = .ok a ∧ f a = .ok b := by
  cases x with
  | ok a => exact ⟨a, rfl, h⟩
  | error e => exact absurd h (by simp [Except.bind])

theorem exceptBind_ok_iff {E A B : Type} (x : Except E A) (f : A → Except E B)
    (b : B) : x.bind f = .ok b ↔ ∃ a, x = .ok a ∧ f a = .ok b := by
  constructor
  · exact exceptBind_ok x f b
  · rintro ⟨a, ha, hf⟩
    rw [ha]
    exact hf

theorem splitOnChar_ne_nil (sep : Char) (s : Str) : splitOnChar sep s ≠ [] := by
  induction s with
  | nil => simp [splitOnChar]
  | cons c rest ih =>
    simp only [splitOnChar]
    split
    · simp
    · cases h : splitOnChar sep rest with
      | nil => exact absurd h ih
      | cons x xs => simp

theorem mem_of_mem_splitOnChar (sep : Char) (s : Str) (c : Char)
    (hc : c ∈ s) :
    c = sep ∨ ∃ part ∈ splitOnChar sep s, c ∈ part := by
  induction s with
  | nil => cases hc
  | cons d rest ih =>
    by_cases hd : d = sep
    · rcases List.mem_cons.mp hc with hcd | hcr
      · exact Or.inl (hcd.trans hd)
      · rcases ih hcr with h | ⟨part, hp, hcp⟩
        · exact Or.inl h
        · refine Or.inr ⟨part, ?_, hcp⟩
          simp only [splitOnChar, if_pos hd]
          exact List.mem_cons_of_mem _ hp
    · cases h : splitOnChar sep rest with
      | nil => exact absurd h (splitOnChar_ne_nil sep rest)
      | cons x xs =>
        have hsplit : splitOnChar sep (d :: rest) = (d :: x) :: xs := by
          simp only [splitOnChar, if_neg hd, h]
        rcases List.mem_cons.mp hc with hcd | hcr
        · refine Or.inr ⟨d :: x, ?_, ?_⟩
          · rw [hsplit]; exact List.mem_cons_self _ _
          · exact hcd ▸ List.mem_cons_self _ _
        · rcases ih hcr with h2 | ⟨part, hp, hcp⟩
          · exact Or.inl h2
          · rw [h] at hp
            rcases List.mem_cons.mp hp with hpx | hpxs
            · refine Or.inr ⟨d :: x, ?_, ?_⟩
              · rw [hsplit]; exact List.mem_cons_self _ _
              · exact List.mem_cons_of_mem _ (hpx ▸ hcp)
            · refine Or.inr ⟨part, ?_, hcp⟩
              rw [hsplit]
              exact List.mem_cons_of_mem _ hpxs

theorem splitOnChar_of_not_mem (sep : Char) (s : Str) (h : sep ∉ s) :
    splitOnChar sep s = [s] := by
  induction s with
  | nil => simp [splitOnChar]
  | cons c rest ih =>
    have hcs : c ≠ sep := fun hc => h (hc ▸ List.mem_cons_self c rest)
    have hrs : sep ∉ rest := fun hr => h (List.mem_cons_of_mem _ hr)
    simp only [splitOnChar, if_neg hcs, ih hrs]

theorem goAtoiDigits_chars (neg : Bool) (d : Str) (a : Int)
    (h : goAtoiDigits neg d = some a) : ∀ c ∈ d, isDigitCh c = true := by
  intro c hc
  unfold goAtoiDigits at h
  split at h
  · exact absurd h (by simp)
  · split at h
    next hall => exact List.all_eq_true.mp hall c hc
    next => exact absurd h (by simp)

theorem goAtoi_chars (s : Str) (a : Int) (h : goAtoi s = some a) :
    ∀ c ∈ s, isDigitCh c = true ∨ c = '+' ∨ c = '-' := by
  intro c hc
  cases s with
  | nil => cases hc
  | cons hd tl =>
    simp only [goAtoi] at h
    by_cases h1 : hd = '+'
    · rw [if_pos h1] at h
      rcases List.mem_cons.mp hc with hch | hct
      · exact Or.inr (Or.inl (hch.trans h1))
      · exact Or.inl (goAtoiDigits_chars _ _ _ h c hct)
    · rw [if_neg h1] at h
      by_cases h2 : hd = '-'
      · rw [if_pos h2] at h
        rcases List.mem_cons.mp hc with hch | hct
        · exact Or.inr (Or.inr (hch.trans h2))
        · exact Or.inl (goAtoiDigits_chars _ _ _ h c hct)
      · rw [if_neg h2] at h
        exact Or.inl (goAtoiDigits_chars _ _ _ h c hc)

example : parseCIDR (str "192.168.0.0/24") =
    some (v4InV6Pre ++ [192, 168, 0, 0]) := by decide
example : (parseCIDR (str "192.168.0.0/24")).map to4 =
    some (some [192, 168, 0, 0]) := by decide
example : parseCIDR (str "2001:db8::/32") =
    some [32, 1, 13, 184, 0, 0, 0, 0, 0, 0, 0, 0, 0, 0, 0, 0] := by decide
example : (parseCIDR (str "2001:db8::/32")).map to4 = some none := by decide
example : parseCIDR (str "::ffff:10.0.0.1/128") =
    some (v4InV6Pre ++ [10, 0, 0, 1]) := by decide
example : parseCIDR (str "10.0.0.0/33") = none := by decide
example : parseCIDR (str "banana") = none := by decide
example : parseCIDR (str "10.0.0.0/8") = some (v4InV6Pre ++ [10, 0, 0, 0]) :=
  by decide
example : parseIP (str "10.1.2.3") = some (v4InV6Pre ++ [10, 1, 2, 3]) := by
  decide
example : parseIP (str "fe80::1") =
    some [254, 128, 0, 0, 0, 0, 0, 0, 0, 0, 0, 0, 0, 0, 0, 1] := by decide
example : parseIP (str "nope") = none := by decide
example : parseIPv4 (str "10.01.2.3") = none := by decide
example : categorizeCommunity (str "100,200") = strStandard := by decide
example : categorizeCommunity (str "100:200:300") = strLarge := by decide
example : categorizeCommunity (str "65536,1") = [] := by decide
example : categorizeCommunity (str "1,2,3") = [] := by decide
example : categorizeCommunity (str "-1,5") = [] := by decide
example : standardCondB (str "100,200") = true := by decide
example : largeCondB (str "100:200:300") = true := by decide

theorem parsesInRangeB_spec (lo hi : Int) (s : Str)
    (h : parsesInRangeB lo hi s = true) :
    ∃ a, goAtoi s = some a ∧ lo ≤ a ∧ a ≤ hi := by
  unfold parsesInRangeB at h
  split at h
  next a heq => exact ⟨a, heq, by simpa using h⟩
  next => cases h

theorem parsesInRangeB_of (lo hi : Int) (s : Str) (a : Int)
    (heq : goAtoi s = some a) (h1 : lo ≤ a) (h2 : a ≤ hi) :
    parsesInRangeB lo hi s = true := by
  unfold parsesInRangeB
  rw [heq]
  simp [h1, h2]

theorem categorize_eq_standard_iff (input : Str) :
    categorizeCommunity input = strStandard ↔ standardCondB input = true := by
  constructor
  · intro h
    unfold categorizeCommunity at h
    split at h
    next s0 s1 heq =>
      split at h
      next a b ha hb =>
        split at h
        next => exact absurd h (by decide)
        next hr1 =>
          split at h
          next => exact absurd h (by decide)
          next hr2 =>
            unfold standardCondB
            rw [heq]
            rw [Bool.and_eq_true]
            constructor
            · exact parsesInRangeB_of _ _ _ a ha (by omega) (by omega)
            · exact parsesInRangeB_of _ _ _ b hb (by omega) (by omega)
      next => exact absurd h (by decide)
    next heq2 =>
      split at h
      next l0 l1 l2 heq3 =>
        split at h
        next a b c ha hb hc =>
          split at h
          next => exact absurd h (by decide)
          next =>
            split at h
            next => exact absurd h (by decide)
            next =>
              split at h
              next => exact absurd h (by decide)
              next => exact absurd h (by decide)
        next => exact absurd h (by decide)
      next => exact absurd h (by decide)
  · intro h
    unfold standardCondB at h
    split at h
    next s0 s1 heq =>
      rw [Bool.and_eq_true] at h
      obtain ⟨a, ha, ha1, ha2⟩ := parsesInRangeB_spec _ _ _ h.1
      obtain ⟨b, hb, hb1, hb2⟩ := parsesInRangeB_spec _ _ _ h.2
      unfold categorizeCommunity
      rw [heq]
      simp only [ha, hb]
      rw [if_neg (by omega), if_neg (by omega)]
    next => cases h

theorem goAtoi_not_comma (s : Str) (a : Int) (h : goAtoi s = some a) :
    ',' ∉ s := by
  intro hmem
  rcases goAtoi_chars s a h ',' hmem with hd | hp | hm
  · exact absurd hd (by decide)
  · exact absurd hp (by decide)
  · exact absurd hm (by decide)

theorem categorize_eq_large_iff (input : Str) :
    categorizeCommunity input = strLarge ↔ largeCondB input = true := by
  constructor
  · intro h
    unfold categorizeCommunity at h
    split at h
    next s0 s1 heq =>
      split at h
      next a b ha hb =>
        split at h
        next => exact absurd h (by decide)
        next =>
          split at h
          next => exact absurd h (by decide)
          next => exact absurd h (by decide)
      next => exact absurd h (by decide)
    next heq2 =>
      split at h
      next l0 l1 l2 heq3 =>
        split at h
        next a b c ha hb hc =>
          split at h
          next => exact absurd h (by decide)
          next hr1 =>
            split at h
            next => exact absurd h (by decide)
            next hr2 =>
              split at h
              next => exact absurd h (by decide)
              next hr3 =>
                unfold largeCondB
                rw [heq3]
                rw [Bool.and_eq_true, Bool.and_eq_true]
                refine ⟨⟨?_, ?_⟩, ?_⟩
                · exact parsesInRangeB_of _ _ _ a ha (by omega) (by omega)
                · exact parsesInRangeB_of _ _ _ b hb (by omega) (by omega)
                · exact parsesInRangeB_of _ _ _ c hc (by omega) (by omega)
        next => exact absurd h (by decide)
      next => exact absurd h (by decide)
  · intro h
    unfold largeCondB at h
    split at h
    next l0 l1 l2 heq3 =>
      rw [Bool.and_eq_true, Bool.and_eq_true] at h
      obtain ⟨⟨h1, h2⟩, h3⟩ := h
      obtain ⟨a, ha, ha1, ha2⟩ := parsesInRangeB_spec _ _ _ h1
      obtain ⟨b, hb, hb1, hb2⟩ := parsesInRangeB_spec _ _ _ h2
      obtain ⟨c, hc, hc1, hc2⟩ := parsesInRangeB_spec _ _ _ h3
      have hnc : ',' ∉ input := by
        intro hmem
        rcases mem_of_mem_splitOnChar ':' input ',' hmem with hcl | hpart
        · exact absurd hcl (by decide)
        · obtain ⟨part, hp, hcp⟩ := hpart
          rw [heq3] at hp
          rcases List.mem_cons.mp hp with h0 | hp2
          · exact goAtoi_not_comma l0 a ha (h0 ▸ hcp)
          · rcases List.mem_cons.mp hp2 with h0 | hp3
            · exact goAtoi_not_comma l1 b hb (h0 ▸ hcp)
            · rcases List.mem_cons.mp hp3 with h0 | hp4
              · exact goAtoi_not_comma l2 c hc (h0 ▸ hcp)
              · cases hp4
      have hsplit : splitOnChar ',' input = [input] :=
        splitOnChar_of_not_mem ',' input hnc
      unfold categorizeCommunity
      rw [hsplit, heq3]
      simp only [ha, hb, hc]
      rw [if_neg (by omega), if_neg (by omega), if_neg (by omega)]
    next => cases h

theorem categorize_cases (input : Str) :
    categorizeCommunity input = strStandard ∨
    categorizeCommunity input = strLarge ∨
    categorizeCommunity input = [] := by
  unfold categorizeCommunity
  split
  · split
    · split
      · simp
      · split
        · simp
        · simp
    · simp
  · split
    · split
      · split
        · simp
        · split
          · simp
          · split
            · simp
            · simp
      · simp
    · simp

/-- C1: `categorizeCommunity` returns standard exactly when splitting on a
comma yields two components that each parse as integers in [0, 65535],
returns large exactly when splitting on a colon yields three components
that each parse as integers in [0, 4294967295], and returns the invalid
marker (the empty string) in every other case. -/
theorem C1_community_classification (input : Str) :
    (categorizeCommunity input = strStandard ↔ standardCondB input = true) ∧
    (categorizeCommunity input = strLarge ↔ largeCondB input = true) ∧
    (standardCondB input = false → largeCondB input = false →
      categorizeCommunity input = []) := by
  refine ⟨categorize_eq_standard_iff input, categorize_eq_large_iff input, ?_⟩
  intro hs hl
  rcases categorize_cases input with h | h | h
  · rw [(categorize_eq_standard_iff input).mp h] at hs
    cases hs
  · rw [(categorize_eq_large_iff input).mp h] at hl
    cases hl
  · exact h

/-- Witness for C1 at concrete inputs: a malformed token is classified
invalid, with the hypotheses discharged by evaluation. -/
theorem C1_community_classification_witness :
    categorizeCommunity (str "70000,1") = [] :=
  (C1_community_classification (str "70000,1")).2.2 (by decide) (by decide)

/-- C2: when a peer references a template that resolves, the merge step is a
per-field override: an unset peer field that the template sets takes the
template value, while an explicitly set peer field keeps its value no matter
what the template holds. -/
theorem C2_template_field_merge (templates : List (Str × Peer0))
    (p tmpl : Peer0) (t : Str) (f : PField)
    (href : p PField.Template = some (FVal.s t)) (hne : t.isEmpty = false)
    (hlook : lookupAssoc templates t = some tmpl)
    (hf : f ≠ PField.Template) :
    mergeStep templates p = .ok (mergeTemplate p tmpl) ∧
    (p f = none → tmpl f ≠ none → mergeTemplate p tmpl f = tmpl f) ∧
    (∀ w, p f = some w → mergeTemplate p tmpl f = some w) := by
  refine ⟨?_, ?_, ?_⟩
  · unfold mergeStep
    rw [href]
    simp [hne, hlook]
  · intro hp ht
    unfold mergeTemplate
    rw [if_neg hf, hp]
    cases h : tmpl f with
    | none => exact absurd h ht
    | some v => rfl
  · intro w hp
    unfold mergeTemplate
    rw [if_neg hf, hp]

/-- Witness for C2: the template value 42 lands on the unset local-pref
field, while the explicitly set ASN 7 survives the merge. -/
theorem C2_template_field_merge_witness :
    mergeTemplate peerMerge tplMerge PField.LocalPref = some (FVal.i 42) ∧
    mergeTemplate peerMerge tplMerge PField.ASN = some (FVal.i 7) := by
  constructor
  · have h := C2_template_field_merge [(str "t", tplMerge)] peerMerge tplMerge
      (str "t") PField.LocalPref (by decide) (by decide) rfl (by decide)
    have h2 := h.2.1 (by decide) (by decide)
    rw [h2]
    decide
  · have h := C2_template_field_merge [(str "t", tplMerge)] peerMerge tplMerge
      (str "t") PField.ASN (by decide) (by decide) rfl (by decide)
    exact h.2.2 (FVal.i 7) (by decide)

theorem partitionPfx_ok (e : Str) (l : List Str) :
    ∀ acc4 acc6, (∀ p ∈ l, (parseCIDR p).isSome) →
    partitionPfx e l acc4 acc6 =
      .ok (acc4 ++ l.filter isV4Str,
           acc6 ++ l.filter (fun p => ! isV4Str p)) := by
  induction l with
  | nil => intro acc4 acc6 _; simp [partitionPfx]
  | cons p rest ih =>
    intro acc4 acc6 h
    obtain ⟨ip, hip⟩ :=
      Option.isSome_iff_exists.mp (h p (List.mem_cons_self p rest))
    have hrest : ∀ q ∈ rest, (parseCIDR q).isSome :=
      fun q hq => h q (List.mem_cons_of_mem _ hq)
    cases hto : to4 ip with
    | none =>
      have hv4 : isV4Str p = false := by simp [isV4Str, hip, hto]
      simp only [partitionPfx, hip, hto, Option.isNone_none, if_true]
      rw [ih _ _ hrest]
      simp [List.filter_cons, hv4]
    | some b =>
      have hv4 : isV4Str p = true := by simp [isV4Str, hip, hto]
      simp only [partitionPfx, hip, hto, Option.isNone_some,
        Bool.false_eq_true, if_false]
      rw [ih _ _ hrest]
      simp [List.filter_cons, hv4]

theorem partitionPfx_err (e : Str) (l : List Str) :
    ∀ acc4 acc6, (∃ p ∈ l, parseCIDR p = none) →
    ∃ p, p ∈ l ∧ parseCIDR p = none ∧
      partitionPfx e l acc4 acc6 = .error (.err (e ++ p)) := by
  induction l with
  | nil => intro _ _ h; obtain ⟨p, hp, _⟩ := h; cases hp
  | cons q rest ih =>
    intro acc4 acc6 h
    cases hq : parseCIDR q with
    | none =>
      refine ⟨q, List.mem_cons_self q rest, hq, ?_⟩
      simp only [partitionPfx, hq]
    | some ip =>
      have hrest : ∃ p ∈ rest, parseCIDR p = none := by
        obtain ⟨p, hp, hpn⟩ := h
        rcases List.mem_cons.mp hp with rfl | hp2
        · rw [hq] at hpn; cases hpn
        · exact ⟨p, hp2, hpn⟩
      cases hto : to4 ip with
      | none =>
        obtain ⟨p, hp, hpn, heq⟩ := ih acc4 (acc6 ++ [q]) hrest
        refine ⟨p, List.mem_cons_of_mem _ hp, hpn, ?_⟩
        simp only [partitionPfx, hq, hto, Option.isNone_none, if_true]
        exact heq
      | some b =>
        obtain ⟨p, hp, hpn, heq⟩ := ih (acc4 ++ [q]) acc6 hrest
        refine ⟨p, List.mem_cons_of_mem _ hp, hpn, ?_⟩
        simp only [partitionPfx, hq, hto, Option.isNone_some,
          Bool.false_eq_true, if_false]
        exact heq

/-- C4: when every element of the list parses, the address-family partition
returns both halves, their concatenation is a permutation of the input (no
element dropped, duplicated or deduplicated), each half preserves input
order (sublists of the input), the halves are disjoint, and an element goes
to the v4 half exactly when its parsed address has a 4-byte form; an
unparsable element fails the partition with an error naming it. -/
theorem C4_family_partition (e : Str) (l : List Str) :
    ((∀ p ∈ l, (parseCIDR p).isSome) →
      ∃ v4 v6, partitionPfx e l [] [] = .ok (v4, v6) ∧
        (v4 ++ v6).Perm l ∧
        v4.Sublist l ∧ v6.Sublist l ∧
        (∀ x, x ∈ v4 → x ∉ v6) ∧
        (∀ q ∈ l, ∀ ip, parseCIDR q = some ip →
          ((to4 ip).isSome = true → q ∈ v4) ∧
          ((to4 ip).isSome = false → q ∈ v6))) ∧
    ((∃ p ∈ l, parseCIDR p = none) →
      ∃ p, p ∈ l ∧ parseCIDR p = none ∧
        partitionPfx e l [] [] = .error (.err (e ++ p))) := by
  constructor
  · intro h
    refine ⟨l.filter isV4Str, l.filter (fun p => ! isV4Str p), ?_, ?_, ?_, ?_,
      ?_, ?_⟩
    · simpa using partitionPfx_ok e l [] [] h
    · exact List.filter_append_perm _ l
    · exact List.filter_sublist l
    · exact List.filter_sublist l
    · intro x hx4 hx6
      have h4 := (List.mem_filter.mp hx4).2
      have h6 := (List.mem_filter.mp hx6).2
      rw [h4] at h6
      cases h6
    · intro q hq ip hip
      constructor
      · intro hs
        refine List.mem_filter.mpr ⟨hq, ?_⟩
        simp [isV4Str, hip, hs]
      · intro hs
        refine List.mem_filter.mpr ⟨hq, ?_⟩
        simp [isV4Str, hip, hs]
  · exact partitionPfx_err e l [] []

/-- Witness for C4: a mixed list with a duplicate partitions successfully,
and a list with an unparsable element fails naming it. -/
theorem C4_family_partition_witness :
    (∃ v4 v6, partitionPfx (str "E")
      [str "10.0.0.0/8", str "2001:db8::/32", str "10.0.0.0/8"] [] [] =
        Except.ok (v4, v6) ∧ v4 = [str "10.0.0.0/8", str "10.0.0.0/8"] ∧
        v6 = [str "2001:db8::/32"]) ∧
    (∃ p, partitionPfx (str "E") [str "10.0.0.0/8", str "nope"] [] [] =
      Except.error (.err (str "E" ++ p))) := by
  constructor
  · obtain ⟨v4, v6, heq, _⟩ :=
      (C4_family_partition (str "E")
        [str "10.0.0.0/8", str "2001:db8::/32", str "10.0.0.0/8"]).1
        (by decide)
    have hcomp : partitionPfx (str "E")
        [str "10.0.0.0/8", str "2001:db8::/32", str "10.0.0.0/8"] [] [] =
        Except.ok ([str "10.0.0.0/8", str "10.0.0.0/8"],
          [str "2001:db8::/32"]) := by rfl
    rw [heq] at hcomp
    simp only [Except.ok.injEq, Prod.mk.injEq] at hcomp
    exact ⟨v4, v6, heq, hcomp.1, hcomp.2⟩
  · obtain ⟨p, _, _, heq⟩ :=
      (C4_family_partition (str "E") [str "10.0.0.0/8", str "nope"]).2
        ⟨str "nope", by decide, by decide⟩
    exact ⟨p, heq⟩

theorem walkCommunities_ok (e : Str) (l : List Str) :
    ∀ std lrg, (∀ t ∈ l, categorizeCommunity t ≠ []) →
    walkCommunities e l std lrg =
      .ok (lazyAppend std (stdToks l), lazyAppend lrg (lrgToks l)) := by
  induction l with
  | nil =>
    intro std lrg _
    cases std <;> cases lrg <;> simp [walkCommunities, stdToks, lrgToks,
      lazyAppend]
  | cons t rest ih =>
    intro std lrg h
    have ht := h t (List.mem_cons_self t rest)
    have hrest : ∀ q ∈ rest, categorizeCommunity q ≠ [] :=
      fun q hq => h q (List.mem_cons_of_mem _ hq)
    have hbsl : (strStandard == strLarge) = false := by decide
    have hbls : (strLarge == strStandard) = false := by decide
    have hSL : ¬ (strLarge = strStandard) := by decide
    rcases categorize_cases t with hc | hc | hc
    · have hstd : stdToks (t :: rest) = t :: stdToks rest := by
        simp [stdToks, List.filter_cons, hc]
      have hlrg : lrgToks (t :: rest) = lrgToks rest := by
        simp [lrgToks, List.filter_cons, hc, hbsl]
      simp only [walkCommunities]
      rw [hc, if_pos rfl, ih _ _ hrest, hstd, hlrg]
      have hla : lazyAppend (some (std.getD [] ++ [t])) (stdToks rest) =
          lazyAppend std (t :: stdToks rest) := by
        simp [lazyAppend]
      rw [hla]
    · have hstd : stdToks (t :: rest) = stdToks rest := by
        simp [stdToks, List.filter_cons, hc, hbls]
      have hlrg : lrgToks (t :: rest) =
          replaceColonComma t :: lrgToks rest := by
        simp [lrgToks, List.filter_cons, hc]
      simp only [walkCommunities]
      rw [hc, if_neg hSL, if_pos rfl, ih _ _ hrest, hstd, hlrg]
      have hla : lazyAppend (some (lrg.getD [] ++ [replaceColonComma t]))
          (lrgToks rest) =
          lazyAppend lrg (replaceColonComma t :: lrgToks rest) := by
        simp [lazyAppend]
      rw [hla]
    · exact absurd hc ht

theorem walkCommunities_err (e : Str) (l : List Str) :
    ∀ std lrg, (∃ t ∈ l, categorizeCommunity t = []) →
    ∃ t, t ∈ l ∧ categorizeCommunity t = [] ∧
      walkCommunities e l std lrg = .error (.err (e ++ t)) := by
  induction l with
  | nil => intro _ _ h; obtain ⟨t, ht, _⟩ := h; cases ht
  | cons q rest ih =>
    intro std lrg h
    have hSL : ¬ (strLarge = strStandard) := by decide
    have hES : ¬ (([] : Str) = strStandard) := by decide
    have hEL : ¬ (([] : Str) = strLarge) := by decide
    rcases categorize_cases q with hc | hc | hc
    · have hrest : ∃ t ∈ rest, categorizeCommunity t = [] := by
        obtain ⟨t, ht, htn⟩ := h
        rcases List.mem_cons.mp ht with rfl | ht2
        · rw [hc] at htn; cases htn
        · exact ⟨t, ht2, htn⟩
      obtain ⟨t, ht, htn, heq⟩ :=
        ih (some (std.getD [] ++ [q])) lrg hrest
      refine ⟨t, List.mem_cons_of_mem _ ht, htn, ?_⟩
      simp only [walkCommunities]
      rw [hc, if_pos rfl]
      exact heq
    · have hrest : ∃ t ∈ rest, categorizeCommunity t = [] := by
        obtain ⟨t, ht, htn⟩ := h
        rcases List.mem_cons.mp ht with rfl | ht2
        · rw [hc] at htn; cases htn
        · exact ⟨t, ht2, htn⟩
      obtain ⟨t, ht, htn, heq⟩ :=
        ih std (some (lrg.getD [] ++ [replaceColonComma q])) hrest
      refine ⟨t, List.mem_cons_of_mem _ ht, htn, ?_⟩
      simp only [walkCommunities]
      rw [hc, if_neg hSL, if_pos rfl]
      exact heq
    · refine ⟨q, List.mem_cons_self q rest, hc, ?_⟩
      simp only [walkCommunities]
      rw [hc, if_neg hES, if_neg hEL]

/-- C5: the community walk appends every standard-form token verbatim to the
standard output list and every large-form token, with its colon separators
rewritten to commas, to the large output list, both in input order; the
first invalid token aborts the walk with an error naming it. -/
theorem C5_community_lists (e : Str) (l : List Str)
    (std lrg : Option (List Str)) :
    ((∀ t ∈ l, categorizeCommunity t ≠ []) →
      walkCommunities e l std lrg =
        .ok (lazyAppend std (stdToks l), lazyAppend lrg (lrgToks l))) ∧
    ((∃ t ∈ l, categorizeCommunity t = []) →
      ∃ t, t ∈ l ∧ categorizeCommunity t = [] ∧
        walkCommunities e l std lrg = .error (.err (e ++ t))) :=
  ⟨walkCommunities_ok e l std lrg, walkCommunities_err e l std lrg⟩

/-- Witness for C5: the token "100,200" is kept verbatim as a standard
community, "100:200:300" is rewritten to "100,200,300" as a large community,
and an invalid token aborts the walk naming it. -/
theorem C5_community_lists_witness :
    walkCommunities (str "E") [str "100,200", str "100:200:300"] none none =
      Except.ok (some [str "100,200"], some [str "100,200,300"]) ∧
    (∃ t, walkCommunities (str "E") [str "1,2,3"] none none =
      Except.error (.err (str "E" ++ t))) := by
  constructor
  · have h := (C5_community_lists (str "E")
      [str "100,200", str "100:200:300"] none none).1 (by decide)
    rw [h]
    rfl
  · obtain ⟨t, _, _, heq⟩ := (C5_community_lists (str "E") [str "1,2,3"]
      none none).2 ⟨str "1,2,3", by decide, by decide⟩
    exact ⟨t, heq⟩

theorem defaultStep_fatal_of_empty (dtag : PField → Str) (knd : PField → FKind)
    (p : Peer0) (opts : List Str) (f : PField)
    (hemp : (dtag f).isEmpty = true) :
    defaultStep dtag knd p opts f =
      .error (.fatal (str "Code error: field has no default value")) := by
  unfold defaultStep
  rw [if_pos hemp]

theorem defaultStep_skip_dash (dtag : PField → Str) (knd : PField → FKind)
    (p : Peer0) (opts : List Str) (f : PField)
    (hemp : ¬ (dtag f).isEmpty = true) (hdm : dtag f = str "-") :
    defaultStep dtag knd p opts f = .ok (p, opts) := by
  unfold defaultStep
  rw [if_neg hemp, if_neg (by simp [hdm])]

theorem defaultStep_shape (dtag : PField → Str) (knd : PField → FKind)
    (p : Peer0) (opts : List Str) (f : PField) (p2 : Peer0) (o2 : List Str)
    (h : defaultStep dtag knd p opts f = .ok (p2, o2)) :
    p2 = p ∨
    (p f = none ∧ dtag f ≠ str "-" ∧ ∃ v, p2 = updPeer p f (some v)) := by
  by_cases hemp : (dtag f).isEmpty = true
  · rw [defaultStep_fatal_of_empty dtag knd p opts f hemp] at h
    cases h
  · by_cases hdm : dtag f = str "-"
    · rw [defaultStep_skip_dash dtag knd p opts f hemp hdm] at h
      simp only [Except.ok.injEq, Prod.mk.injEq] at h
      exact Or.inl h.1.symm
    · cases hpf : p f with
      | some v =>
        simp only [defaultStep, if_neg hemp, hpf] at h
        rw [if_pos hdm] at h
        by_cases hkb : knd f = FKind.kBool
        · rw [if_pos hkb] at h
          simp only [Except.ok.injEq, Prod.mk.injEq] at h
          exact Or.inl h.1.symm
        · rw [if_neg hkb] at h
          simp only [Except.ok.injEq, Prod.mk.injEq] at h
          exact Or.inl h.1.symm
      | none =>
        cases hknd : knd f with
        | kString =>
          simp only [defaultStep, if_neg hemp, hpf, hknd] at h
          rw [if_pos hdm] at h
          simp only [Except.ok.injEq, Prod.mk.injEq] at h
          exact Or.inr ⟨rfl, hdm, _, h.1.symm⟩
        | kInt =>
          cases hatoi : goAtoi (dtag f) with
          | some n =>
            simp only [defaultStep, if_neg hemp, hpf, hknd, hatoi] at h
            rw [if_pos hdm] at h
            simp only [Except.ok.injEq, Prod.mk.injEq] at h
            exact Or.inr ⟨rfl, hdm, _, h.1.symm⟩
          | none =>
            simp only [defaultStep, if_neg hemp, hpf, hknd, hatoi] at h
            rw [if_pos hdm] at h
            exact Except.noConfusion h
        | kBool =>
          cases hpb : goParseBool (dtag f) with
          | some b =>
            simp only [defaultStep, if_neg hemp, hpf, hknd, hpb] at h
            rw [if_pos hdm] at h
            simp only [Except.ok.injEq, Prod.mk.injEq] at h
            exact Or.inr ⟨rfl, hdm, _, h.1.symm⟩
          | none =>
            simp only [defaultStep, if_neg hemp, hpf, hknd, hpb] at h
            rw [if_pos hdm] at h
            exact Except.noConfusion h
        | kSlice =>
          simp only [defaultStep, if_neg hemp, hpf, hknd] at h
          rw [if_pos hdm] at h
          simp only [Except.ok.injEq, Prod.mk.injEq] at h
          exact Or.inl h.1.symm
        | kMap =>
          simp only [defaultStep, if_neg hemp, hpf, hknd] at h
          rw [if_pos hdm] at h
          exact Except.noConfusion h

theorem defaultStep_error_fatal (dtag : PField → Str) (knd : PField → FKind)
    (p : Peer0) (opts : List Str) (f : PField) (e : LoadError)
    (h : defaultStep dtag knd p opts f = .error e) : ∃ msg, e = .fatal msg := by
  by_cases hemp : (dtag f).isEmpty = true
  · rw [defaultStep_fatal_of_empty dtag knd p opts f hemp] at h
    exact ⟨_, ((Except.error.injEq _ _).mp h).symm⟩
  · by_cases hdm : dtag f = str "-"
    · rw [defaultStep_skip_dash dtag knd p opts f hemp hdm] at h
      exact Except.noConfusion h
    · cases hpf : p f with
      | some v =>
        simp only [defaultStep, if_neg hemp, hpf] at h
        rw [if_pos hdm] at h
        by_cases hkb : knd f = FKind.kBool
        · rw [if_pos hkb] at h
          exact Except.noConfusion h
        · rw [if_neg hkb] at h
          exact Except.noConfusion h
      | none =>
        cases hknd : knd f with
        | kString =>
          simp only [defaultStep, if_neg hemp, hpf, hknd] at h
          rw [if_pos hdm] at h
          exact Except.noConfusion h
        | kInt =>
          cases hatoi : goAtoi (dtag f) with
          | some n =>
            simp only [defaultStep, if_neg hemp, hpf, hknd, hatoi] at h
            rw [if_pos hdm] at h
            exact Except.noConfusion h
          | none =>
            simp only [defaultStep, if_neg hemp, hpf, hknd, hatoi] at h
            rw [if_pos hdm] at h
            exact ⟨_, ((Except.error.injEq _ _).mp h).symm⟩
        | kBool =>
          cases hpb : goParseBool (dtag f) with
          | some b =>
            simp only [defaultStep, if_neg hemp, hpf, hknd, hpb] at h
            rw [if_pos hdm] at h
            exact Except.noConfusion h
          | none =>
            simp only [defaultStep, if_neg hemp, hpf, hknd, hpb] at h
            rw [if_pos hdm] at h
            exact ⟨_, ((Except.error.injEq _ _).mp h).symm⟩
        | kSlice =>
          simp only [defaultStep, if_neg hemp, hpf, hknd] at h
          rw [if_pos hdm] at h
          exact Except.noConfusion h
        | kMap =>
          simp only [defaultStep, if_neg hemp, hpf, hknd] at h
          rw [if_pos hdm] at h
          exact ⟨_, ((Except.error.injEq _ _).mp h).symm⟩

theorem defaultStep_sets (dtag : PField → Str) (knd : PField → FKind)
    (p : Peer0) (opts : List Str) (f : PField) (p2 : Peer0) (o2 : List Str)
    (h : defaultStep dtag knd p opts f = .ok (p2, o2))
    (hdne : dtag f ≠ str "-") (hk : knd f ≠ FKind.kSlice) : p2 f ≠ none := by
  by_cases hemp : (dtag f).isEmpty = true
  · rw [defaultStep_fatal_of_empty dtag knd p opts f hemp] at h
    cases h
  · cases hpf : p f with
    | some v =>
      simp only [defaultStep, if_neg hemp, hpf] at h
      rw [if_pos hdne] at h
      by_cases hkb : knd f = FKind.kBool
      · rw [if_pos hkb] at h
        simp only [Except.ok.injEq, Prod.mk.injEq] at h
        rw [← h.1, hpf]
        simp
      · rw [if_neg hkb] at h
        simp only [Except.ok.injEq, Prod.mk.injEq] at h
        rw [← h.1, hpf]
        simp
    | none =>
      cases hknd : knd f with
      | kString =>
        simp only [defaultStep, if_neg hemp, hpf, hknd] at h
        rw [if_pos hdne] at h
        simp only [Except.ok.injEq, Prod.mk.injEq] at h
        rw [← h.1]
        simp [updPeer]
      | kInt =>
        cases hatoi : goAtoi (dtag f) with
        | some n =>
          simp only [defaultStep, if_neg hemp, hpf, hknd, hatoi] at h
          rw [if_pos hdne] at h
          simp only [Except.ok.injEq, Prod.mk.injEq] at h
          rw [← h.1]
          simp [updPeer]
        | none =>
          simp only [defaultStep, if_neg hemp, hpf, hknd, hatoi] at h
          rw [if_pos hdne] at h
          exact Except.noConfusion h
      | kBool =>
        cases hpb : goParseBool (dtag f) with
        | some b =>
          simp only [defaultStep, if_neg hemp, hpf, hknd, hpb] at h
          rw [if_pos hdne] at h
          simp only [Except.ok.injEq, Prod.mk.injEq] at h
          rw [← h.1]
          simp [updPeer]
        | none =>
          simp only [defaultStep, if_neg hemp, hpf, hknd, hpb] at h
          rw [if_pos hdne] at h
          exact Except.noConfusion h
      | kSlice => exact absurd hknd hk
      | kMap =>
        simp only [defaultStep, if_neg hemp, hpf, hknd] at h
        rw [if_pos hdne] at h
        exact Except.noConfusion h

theorem setDefaultsAux_pres (dtag : PField → Str) (knd : PField → FKind)
    (l : List PField) :
    ∀ p opts p2 o2, setDefaultsAux dtag knd l p opts = .ok (p2, o2) →
    ∀ g v, p g = some v → p2 g = some v := by
  induction l with
  | nil =>
    intro p opts p2 o2 h g v hg
    simp only [setDefaultsAux, Except.ok.injEq, Prod.mk.injEq] at h
    rw [← h.1]
    exact hg
  | cons f rest ih =>
    intro p opts p2 o2 h g v hg
    unfold setDefaultsAux at h
    split at h
    · exact absurd h (by simp)
    next po hstep =>
      rcases defaultStep_shape dtag knd p opts f po.1 po.2
          (by rw [hstep]) with hsh | ⟨hpf, _, w, hsh⟩
      · exact ih po.1 po.2 p2 o2 h g v (by rw [hsh]; exact hg)
      · by_cases hgf : g = f
        · rw [hgf, hpf] at hg
          cases hg
        · refine ih po.1 po.2 p2 o2 h g v ?_
          rw [hsh]
          simp only [updPeer, if_neg hgf]
          exact hg

theorem setDefaultsAux_skip (dtag : PField → Str) (knd : PField → FKind)
    (l : List PField) :
    ∀ p opts p2 o2, setDefaultsAux dtag knd l p opts = .ok (p2, o2) →
    ∀ g, dtag g = str "-" → p2 g = p g := by
  induction l with
  | nil =>
    intro p opts p2 o2 h g _
    simp only [setDefaultsAux, Except.ok.injEq, Prod.mk.injEq] at h
    rw [← h.1]
  | cons f rest ih =>
    intro p opts p2 o2 h g hgd
    unfold setDefaultsAux at h
    split at h
    · exact absurd h (by simp)
    next po hstep =>
      rcases defaultStep_shape dtag knd p opts f po.1 po.2
          (by rw [hstep]) with hsh | ⟨hpf, hdne, w, hsh⟩
      · rw [ih po.1 po.2 p2 o2 h g hgd, hsh]
      · by_cases hgf : g = f
        · rw [hgf] at hgd
          exact absurd hgd hdne
        · rw [ih po.1 po.2 p2 o2 h g hgd, hsh]
          simp only [updPeer, if_neg hgf]

theorem setDefaultsAux_sets (dtag : PField → Str) (knd : PField → FKind)
    (l : List PField) :
    ∀ p opts p2 o2, setDefaultsAux dtag knd l p opts = .ok (p2, o2) →
    ∀ f ∈ l, dtag f ≠ str "-" → knd f ≠ FKind.kSlice → p2 f ≠ none := by
  induction l with
  | nil => intro p opts p2 o2 _ f hf; cases hf
  | cons g rest ih =>
    intro p opts p2 o2 h f hf hdne hk
    unfold setDefaultsAux at h
    split at h
    · exact absurd h (by simp)
    next po hstep =>
      rcases List.mem_cons.mp hf with rfl | hf2
      · have hset := defaultStep_sets dtag knd p opts f po.1 po.2
          (by rw [hstep]) hdne hk
        cases hpo : po.1 f with
        | none => exact absurd hpo hset
        | some v =>
          have hp2 := setDefaultsAux_pres dtag knd rest po.1 po.2 p2 o2 h f v
            hpo
          rw [hp2]
          simp
      · exact ih po.1 po.2 p2 o2 h f hf2 hdne hk

theorem setDefaultsAux_fatal (dtag : PField → Str) (knd : PField → FKind)
    (l : List PField) :
    ∀ p opts, (∃ f ∈ l, (dtag f).isEmpty = true) →
    ∃ msg, setDefaultsAux dtag knd l p opts = .error (.fatal msg) := by
  induction l with
  | nil => intro _ _ h; obtain ⟨f, hf, _⟩ := h; cases hf
  | cons g rest ih =>
    intro p opts h
    cases hstep : defaultStep dtag knd p opts g with
    | error e =>
      obtain ⟨msg, hmsg⟩ :=
        defaultStep_error_fatal dtag knd p opts g e hstep
      refine ⟨msg, ?_⟩
      unfold setDefaultsAux
      rw [hstep, hmsg]
    | ok po =>
      have hrest : ∃ f ∈ rest, (dtag f).isEmpty = true := by
        obtain ⟨f, hf, hemp⟩ := h
        rcases List.mem_cons.mp hf with rfl | hf2
        · rw [defaultStep_fatal_of_empty dtag knd p opts f hemp] at hstep
          cases hstep
        · exact ⟨f, hf2, hemp⟩
      obtain ⟨msg, hmsg⟩ := ih po.1 po.2 hrest
      refine ⟨msg, ?_⟩
      unfold setDefaultsAux
      rw [hstep]
      exact hmsg

theorem updPeer_same (p : Peer0) (f : PField) (v : Option FVal) :
    updPeer p f v f = v := by
  unfold updPeer
  rw [if_pos rfl]

theorem updPeer_ne (p : Peer0) (f g : PField) (v : Option FVal)
    (h : g ≠ f) : updPeer p f v g = p g := by
  unfold updPeer
  rw [if_neg h]

theorem allFields_mem : ∀ f : PField, f ∈ allFields := by
  intro f
  cases f <;> decide

theorem peerDefault_nonempty : ∀ f : PField, (peerDefault f).isEmpty = false := by
  intro f
  cases f <;> rfl

theorem peerKind_not_slice :
    ∀ f : PField, peerDefault f ≠ str "-" → peerKind f ≠ FKind.kSlice := by
  intro f
  cases f <;> decide

theorem mergeStep_pres_some (templates : List (Str × Peer0)) (q q2 : Peer0)
    (h : mergeStep templates q = .ok q2) :
    ∀ f v, q f = some v → q2 f = some v := by
  intro f v hv
  unfold mergeStep at h
  split at h
  next t heq =>
    split at h
    · simp only [Except.ok.injEq] at h
      rw [← h]
      exact hv
    · split at h
      · exact Except.noConfusion h
      next tmpl hlook =>
        simp only [Except.ok.injEq] at h
        rw [← h]
        unfold mergeTemplate
        by_cases hft : f = PField.Template
        · rw [if_pos hft]
          exact hv
        · rw [if_neg hft, hv]
  next => exact Except.noConfusion h
  next heq =>
    simp only [Except.ok.injEq] at h
    rw [← h]
    exact hv

theorem phase1Peer_ok_parts (sanitize : Str → Str)
    (templates : List (Str × Peer0)) (name : Str) (p : Peer0) (nv : Bool)
    (p2 : Peer0) (nv2 : Bool)
    (h : phase1Peer sanitize templates name p nv = .ok (p2, nv2)) :
    (∃ nb, p PField.NeighborIPs = some (FVal.sl nb) ∧ nb ≠ []) ∧
    nv2 = ((p PField.FilterNeverViaRouteServers).isSome || nv) ∧
    (∀ f, peerDefault f ≠ str "-" → p2 f ≠ none) ∧
    (∀ f v, f ≠ PField.ProtocolName → f ≠ PField.BooleanOptions →
      p f = some v → p2 f = some v) := by
  simp only [phase1Peer] at h
  rw [updPeer_ne p PField.ProtocolName PField.NeighborIPs _ (by decide),
    updPeer_ne p PField.ProtocolName PField.FilterNeverViaRouteServers _
      (by decide)] at h
  cases hnb : p PField.NeighborIPs with
  | none =>
    simp only [hnb] at h
    exact Except.noConfusion h
  | some v0 =>
    cases v0 with
    | sl nb =>
      simp only [hnb] at h
      by_cases hlen : nb.length < 1
      · rw [if_pos hlen] at h
        exact Except.noConfusion h
      · rw [if_neg hlen] at h
        cases hmrg : mergeStep templates
            (updPeer (updPeer p PField.ProtocolName
              (some (FVal.s (sanitize name)))) PField.BooleanOptions
              (some (FVal.sl []))) with
        | error e =>
          rw [hmrg] at h
          exact Except.noConfusion h
        | ok p3 =>
          simp only [hmrg] at h
          cases hdef : setDefaults peerDefault peerKind p3 with
          | error e =>
            rw [hdef] at h
            exact Except.noConfusion h
          | ok po =>
            simp only [hdef] at h
            simp only [Except.ok.injEq, Prod.mk.injEq] at h
            refine ⟨⟨nb, rfl, ?_⟩, ?_, ?_, ?_⟩
            · intro hnil
              rw [hnil] at hlen
              exact hlen (by decide)
            · rw [← h.2]
              cases hfn : (p PField.FilterNeverViaRouteServers).isSome <;>
                simp [hfn]
            · intro f hdne
              rw [← h.1]
              by_cases hfb : f = PField.BooleanOptions
              · rw [hfb] at hdne
                exact absurd rfl hdne
              · rw [updPeer_ne _ _ _ _ hfb]
                exact setDefaultsAux_sets peerDefault peerKind allFields p3 []
                  po.1 po.2 hdef f (allFields_mem f) hdne
                  (peerKind_not_slice f hdne)
            · intro f v hfp hfb hv
              rw [← h.1, updPeer_ne _ _ _ _ hfb]
              refine setDefaultsAux_pres peerDefault peerKind allFields p3 []
                po.1 po.2 hdef f v ?_
              refine mergeStep_pres_some templates _ p3 hmrg f v ?_
              rw [updPeer_ne _ _ _ _ hfb, updPeer_ne _ _ _ _ hfp]
              exact hv
    | s v1 =>
      simp only [hnb] at h
      exact Except.noConfusion h
    | i v1 =>
      simp only [hnb] at h
      exact Except.noConfusion h
    | b v1 =>
      simp only [hnb] at h
      exact Except.noConfusion h
    | m v1 =>
      simp only [hnb] at h
      exact Except.noConfusion h

theorem processPeers1_ok_in (sanitize : Str → Str)
    (templates : List (Str × Peer0)) (l : List (Str × Peer0)) :
    ∀ nv l2 nv2, processPeers1 sanitize templates l nv = .ok (l2, nv2) →
    ∀ np ∈ l, ∃ nb, np.2 PField.NeighborIPs = some (FVal.sl nb) ∧ nb ≠ [] := by
  induction l with
  | nil => intro nv l2 nv2 _ np hnp; cases hnp
  | cons q rest ih =>
    intro nv l2 nv2 h np hnp
    unfold processPeers1 at h
    split at h
    · exact Except.noConfusion h
    next pb hq =>
      split at h
      · exact Except.noConfusion h
      next rb hrest =>
        rcases List.mem_cons.mp hnp with rfl | hnp2
        · exact (phase1Peer_ok_parts sanitize templates np.1 np.2 nv pb.1 pb.2
            (by rw [hq])).1
        · exact ih pb.2 rb.1 rb.2 (by rw [hrest]) np hnp2

theorem processPeers1_ok_out (sanitize : Str → Str)
    (templates : List (Str × Peer0)) (l : List (Str × Peer0)) :
    ∀ nv l2 nv2, processPeers1 sanitize templates l nv = .ok (l2, nv2) →
    ∀ np2 ∈ l2, ∃ np nvA nvB, np ∈ l ∧ np.1 = np2.1 ∧
      phase1Peer sanitize templates np.1 np.2 nvA = .ok (np2.2, nvB) := by
  induction l with
  | nil =>
    intro nv l2 nv2 h np2 hnp2
    simp only [processPeers1, Except.ok.injEq, Prod.mk.injEq] at h
    rw [← h.1] at hnp2
    cases hnp2
  | cons q rest ih =>
    intro nv l2 nv2 h np2 hnp2
    unfold processPeers1 at h
    split at h
    · exact Except.noConfusion h
    next pb hq =>
      split at h
      · exact Except.noConfusion h
      next rb hrest =>
        simp only [Except.ok.injEq, Prod.mk.injEq] at h
        rw [← h.1] at hnp2
        rcases List.mem_cons.mp hnp2 with rfl | hnp3
        · exact ⟨q, nv, pb.2, List.mem_cons_self q rest, rfl, by rw [hq]⟩
        · obtain ⟨np, nvA, nvB, hmem, hname, hph⟩ :=
            ih pb.2 rb.1 rb.2 (by rw [hrest]) np2 hnp3
          exact ⟨np, nvA, nvB, List.mem_cons_of_mem _ hmem, hname, hph⟩

theorem processPeers1_nvrs (sanitize : Str → Str)
    (templates : List (Str × Peer0)) (l : List (Str × Peer0)) :
    ∀ nv l2 nv2, processPeers1 sanitize templates l nv = .ok (l2, nv2) →
    nv2 = (nv || l.any
      (fun np => (np.2 PField.FilterNeverViaRouteServers).isSome)) := by
  induction l with
  | nil =>
    intro nv l2 nv2 h
    simp only [processPeers1, Except.ok.injEq, Prod.mk.injEq] at h
    rw [← h.2]
    simp
  | cons q rest ih =>
    intro nv l2 nv2 h
    unfold processPeers1 at h
    split at h
    · exact Except.noConfusion h
    next pb hq =>
      split at h
      · exact Except.noConfusion h
      next rb hrest =>
        simp only [Except.ok.injEq, Prod.mk.injEq] at h
        have h1 := (phase1Peer_ok_parts sanitize templates q.1 q.2 nv pb.1
          pb.2 (by rw [hq])).2.1
        have h2 := ih pb.2 rb.1 rb.2 (by rw [hrest])
        rw [← h.2, h2, h1]
        simp only [List.any_cons]
        cases (q.2 PField.FilterNeverViaRouteServers).isSome <;>
          cases nv <;> simp

theorem checkTemplates_eq_s (q : Str × Peer0) (rest : List (Str × Peer0))
    (t : Str) (hT : q.2 PField.Template = some (FVal.s t)) :
    checkTemplates (q :: rest) =
      if ¬ t.isEmpty = true then
        .error (.fatal
          (str "Templates must not have a template field set, but " ++
            q.1 ++ str " does"))
      else checkTemplates rest := by
  rw [checkTemplates]
  rw [hT]

theorem checkTemplates_eq_none (q : Str × Peer0) (rest : List (Str × Peer0))
    (hT : q.2 PField.Template = none) :
    checkTemplates (q :: rest) = checkTemplates rest := by
  rw [checkTemplates]
  rw [hT]

theorem checkTemplates_ok (l : List (Str × Peer0))
    (h : checkTemplates l = .ok ()) :
    ∀ nt ∈ l, ∀ v, nt.2 PField.Template = some (FVal.s v) → v = [] := by
  induction l with
  | nil => intro nt hnt; cases hnt
  | cons q rest ih =>
    intro nt hnt v hv
    cases hT : q.2 PField.Template with
    | none =>
      rw [checkTemplates_eq_none q rest hT] at h
      rcases List.mem_cons.mp hnt with rfl | hnt2
      · rw [hT] at hv
        exact absurd hv (by simp)
      · exact ih h nt hnt2 v hv
    | some w =>
      cases w with
      | s t =>
        rw [checkTemplates_eq_s q rest t hT] at h
        by_cases ht : t.isEmpty = true
        · rw [if_neg (not_not_intro ht)] at h
          rcases List.mem_cons.mp hnt with rfl | hnt2
          · rw [hT] at hv
            simp only [Option.some.injEq, FVal.s.injEq] at hv
            rw [← hv]
            exact List.isEmpty_iff.mp ht
          · exact ih h nt hnt2 v hv
        · rw [if_pos ht] at h
          exact Except.noConfusion h
      | i w1 =>
        have heq : checkTemplates (q :: rest) =
            .error (.fatal (str "Template field is not a string")) := by
          unfold checkTemplates
          rw [hT]
        rw [heq] at h
        exact Except.noConfusion h
      | b w1 =>
        have heq : checkTemplates (q :: rest) =
            .error (.fatal (str "Template field is not a string")) := by
          unfold checkTemplates
          rw [hT]
        rw [heq] at h
        exact Except.noConfusion h
      | sl w1 =>
        have heq : checkTemplates (q :: rest) =
            .error (.fatal (str "Template field is not a string")) := by
          unfold checkTemplates
          rw [hT]
        rw [heq] at h
        exact Except.noConfusion h
      | m w1 =>
        have heq : checkTemplates (q :: rest) =
            .error (.fatal (str "Template field is not a string")) := by
          unfold checkTemplates
          rw [hT]
        rw [heq] at h
        exact Except.noConfusion h

theorem checkTemplates_offender (l : List (Str × Peer0))
    (h : ∃ nt ∈ l, ∃ v, nt.2 PField.Template = some (FVal.s v) ∧ v ≠ []) :
    ∃ msg, checkTemplates l = .error (.fatal msg) := by
  induction l with
  | nil => obtain ⟨nt, hnt, _⟩ := h; cases hnt
  | cons q rest ih =>
    cases hT : q.2 PField.Template with
    | none =>
      have hrest : ∃ nt ∈ rest, ∃ v,
          nt.2 PField.Template = some (FVal.s v) ∧ v ≠ [] := by
        obtain ⟨nt, hnt, v, hv, hvne⟩ := h
        rcases List.mem_cons.mp hnt with rfl | hnt2
        · rw [hT] at hv
          exact absurd hv (by simp)
        · exact ⟨nt, hnt2, v, hv, hvne⟩
      obtain ⟨msg, hmsg⟩ := ih hrest
      exact ⟨msg, by rw [checkTemplates_eq_none q rest hT]; exact hmsg⟩
    | some w =>
      cases w with
      | s t =>
        by_cases ht : t.isEmpty = true
        · have hrest : ∃ nt ∈ rest, ∃ v,
              nt.2 PField.Template = some (FVal.s v) ∧ v ≠ [] := by
            obtain ⟨nt, hnt, v, hv, hvne⟩ := h
            rcases List.mem_cons.mp hnt with rfl | hnt2
            · rw [hT] at hv
              simp only [Option.some.injEq, FVal.s.injEq] at hv
              rw [← hv] at hvne
              exact absurd (List.isEmpty_iff.mp ht) hvne
            · exact ⟨nt, hnt2, v, hv, hvne⟩
          obtain ⟨msg, hmsg⟩ := ih hrest
          refine ⟨msg, ?_⟩
          rw [checkTemplates_eq_s q rest t hT, if_neg (not_not_intro ht)]
          exact hmsg
        · refine ⟨str "Templates must not have a template field set, but " ++
            q.1 ++ str " does", ?_⟩
          rw [checkTemplates_eq_s q rest t hT, if_pos ht]
      | i w1 =>
        refine ⟨str "Template field is not a string", ?_⟩
        unfold checkTemplates
        rw [hT]
      | b w1 =>
        refine ⟨str "Template field is not a string", ?_⟩
        unfold checkTemplates
        rw [hT]
      | sl w1 =>
        refine ⟨str "Template field is not a string", ?_⟩
        unfold checkTemplates
        rw [hT]
      | m w1 =>
        refine ⟨str "Template field is not a string", ?_⟩
        unfold checkTemplates
        rw [hT]

theorem load_ok_inv (sanitize : Str → Str) (hn : Option Str) (c0 : Conf)
    (c : Conf) (h : load sanitize hn c0 = .ok c) :
    ¬ (c0.asn = 0 ∨ c0.routerID.isEmpty = true) ∧
    checkTemplates c0.templates = .ok () ∧
    ∃ pnv p46 srd s46 bfd vrrp hp peers2,
      processPeers1 sanitize c0.templates c0.peers false = .ok pnv ∧
      partitionPfx (str "Invalid origin prefix: ") c0.prefixes [] [] =
        .ok p46 ∧
      walkCommunities (str "Invalid SRD community: ") c0.srdCommunities none
        none = .ok srd ∧
      partitionStatics c0.statics [] [] = .ok s46 ∧
      processBFD sanitize c0.bfdInstances = .ok bfd ∧
      processVRRP c0.vrrpInstances = .ok vrrp ∧
      parseRTR c0.rtrServer = .ok hp ∧
      processPeers2 c0.prefixes pnv.1 = .ok peers2 ∧
      c.peers = peers2 ∧ c.queryNVRS = pnv.2 ∧ c.prefixes4 = p46.1 ∧
      c.prefixes6 = p46.2 ∧ c.templates = c0.templates ∧
      c.prefixes = c0.prefixes := by
  unfold load at h
  split at h
  · exact Except.noConfusion h
  next hval =>
    obtain ⟨u, hct, h⟩ := exceptBind_ok _ _ _ h
    obtain ⟨hname, hh, h⟩ := exceptBind_ok _ _ _ h
    obtain ⟨pnv, hp1, h⟩ := exceptBind_ok _ _ _ h
    obtain ⟨p46, hp46, h⟩ := exceptBind_ok _ _ _ h
    obtain ⟨srd, hsrd, h⟩ := exceptBind_ok _ _ _ h
    obtain ⟨s46, hs46, h⟩ := exceptBind_ok _ _ _ h
    obtain ⟨bfd, hbfd, h⟩ := exceptBind_ok _ _ _ h
    obtain ⟨vrrp, hvrrp, h⟩ := exceptBind_ok _ _ _ h
    obtain ⟨hp, hrtr, h⟩ := exceptBind_ok _ _ _ h
    obtain ⟨peers2, hp2, h⟩ := exceptBind_ok _ _ _ h
    simp only [Except.ok.injEq] at h
    cases u
    refine ⟨hval, hct, pnv, p46, srd, s46, bfd, vrrp, hp, peers2, hp1, hp46,
      hsrd, hs46, hbfd, hvrrp, hrtr, hp2, ?_, ?_, ?_, ?_, ?_, ?_⟩ <;>
      rw [← h]

theorem walkPeerPfx_err (l : List Str) :
    ∀ s4 s6, (∃ q ∈ l, parseCIDR q = none) →
    ∃ q, q ∈ l ∧ parseCIDR q = none ∧
      walkPeerPfx l s4 s6 = .error (.err (str "Invalid prefix: " ++ q)) := by
  induction l with
  | nil => intro _ _ h; obtain ⟨q, hq, _⟩ := h; cases hq
  | cons a rest ih =>
    intro s4 s6 h
    cases ha : parseCIDR a with
    | none =>
      refine ⟨a, List.mem_cons_self a rest, ha, ?_⟩
      simp only [walkPeerPfx, ha]
    | some ip =>
      have hrest : ∃ q ∈ rest, parseCIDR q = none := by
        obtain ⟨q, hq, hqn⟩ := h
        rcases List.mem_cons.mp hq with rfl | hq2
        · rw [ha] at hqn
          cases hqn
        · exact ⟨q, hq2, hqn⟩
      cases hto : to4 ip with
      | none =>
        obtain ⟨q, hq, hqn, heq⟩ := ih s4 (some (s6.getD [] ++ [a])) hrest
        refine ⟨q, List.mem_cons_of_mem _ hq, hqn, ?_⟩
        simp only [walkPeerPfx, ha, hto, Option.isNone_none, if_true]
        exact heq
      | some b =>
        obtain ⟨q, hq, hqn, heq⟩ := ih (some (s4.getD [] ++ [a])) s6 hrest
        refine ⟨q, List.mem_cons_of_mem _ hq, hqn, ?_⟩
        simp only [walkPeerPfx, ha, hto, Option.isNone_some,
          Bool.false_eq_true, if_false]
        exact heq

theorem applyPfxSets_other (p p2 : Peer0) (h : applyPfxSets p = .ok p2) :
    ∀ f, f ≠ PField.PrefixSet4 → f ≠ PField.PrefixSet6 → p2 f = p f := by
  intro f h4 h6
  unfold applyPfxSets at h
  split at h
  next l hl =>
    split at h
    · exact Except.noConfusion h
    next s46 hwalk =>
      simp only [Except.ok.injEq] at h
      rw [← h, updPeer_ne _ _ _ _ h6, updPeer_ne _ _ _ _ h4]
  next =>
    simp only [Except.ok.injEq] at h
    rw [← h]

theorem applyPfxSets_valid (p p2 : Peer0) (h : applyPfxSets p = .ok p2)
    (l : List Str) (hl : p PField.Prefixes = some (FVal.sl l)) :
    ∀ q ∈ l, (parseCIDR q).isSome := by
  intro q hq
  by_contra hnone
  have hqn : parseCIDR q = none := Option.not_isSome_iff_eq_none.mp hnone
  obtain ⟨b, hb, hbn, herr⟩ := walkPeerPfx_err l
    (asSL (p PField.PrefixSet4)) (asSL (p PField.PrefixSet6)) ⟨q, hq, hqn⟩
  unfold applyPfxSets at h
  simp only [hl] at h
  rw [herr] at h
  exact Except.noConfusion h

theorem applyCommField_other (src stdF lrgF : PField) (errPre : Str)
    (p p2 : Peer0) (h : applyCommField src stdF lrgF errPre p = .ok p2) :
    ∀ f, f ≠ stdF → f ≠ lrgF → p2 f = p f := by
  intro f hs hl
  unfold applyCommField at h
  split at h
  next toks htoks =>
    split at h
    · exact Except.noConfusion h
    next sl2 hwalk =>
      simp only [Except.ok.injEq] at h
      rw [← h, updPeer_ne _ _ _ _ hl, updPeer_ne _ _ _ _ hs]
  next =>
    simp only [Except.ok.injEq] at h
    rw [← h]

theorem applyCommField_valid (src stdF lrgF : PField) (errPre : Str)
    (p p2 : Peer0) (h : applyCommField src stdF lrgF errPre p = .ok p2)
    (toks : List Str) (htoks : p src = some (FVal.sl toks)) :
    ∀ t ∈ toks, categorizeCommunity t ≠ [] := by
  intro t ht
  by_contra hinv
  obtain ⟨b, hb, hbn, herr⟩ := walkCommunities_err errPre toks
    (asSL (p stdF)) (asSL (p lrgF)) ⟨t, ht, hinv⟩
  unfold applyCommField at h
  simp only [htoks] at h
  rw [herr] at h
  exact Except.noConfusion h

theorem applyAnnounceOriginated_other (gp : List Str) (p p2 : Peer0)
    (h : applyAnnounceOriginated gp p = .ok p2) :
    ∀ f, f ≠ PField.AnnounceOriginated → p2 f = p f := by
  intro f hf
  unfold applyAnnounceOriginated at h
  split at h
  · split at h
    · simp only [Except.ok.injEq] at h
      rw [← h, updPeer_ne _ _ _ _ hf]
    · simp only [Except.ok.injEq] at h
      rw [← h]
    · exact Except.noConfusion h
  · simp only [Except.ok.injEq] at h
    rw [← h]

theorem applyAnnounceOriginated_pres (gp : List Str) (p p2 : Peer0)
    (h : applyAnnounceOriginated gp p = .ok p2) :
    ∀ f, p f ≠ none → p2 f ≠ none := by
  intro f hf
  unfold applyAnnounceOriginated at h
  split at h
  · split at h
    next hao =>
      simp only [Except.ok.injEq] at h
      rw [← h]
      by_cases hfa : f = PField.AnnounceOriginated
      · rw [hfa, updPeer_same]
        simp
      · rw [updPeer_ne _ _ _ _ hfa]
        exact hf
    next hao =>
      simp only [Except.ok.injEq] at h
      rw [← h]
      exact hf
    · exact Except.noConfusion h
  · simp only [Except.ok.injEq] at h
    rw [← h]
    exact hf

theorem applyAnnounceOriginated_empty (p p2 : Peer0)
    (h : applyAnnounceOriginated [] p = .ok p2) :
    p2 PField.AnnounceOriginated = some (FVal.b false) := by
  unfold applyAnnounceOriginated at h
  rw [if_pos (by decide)] at h
  split at h
  next hao =>
    simp only [Except.ok.injEq] at h
    rw [← h, updPeer_same]
  next hao =>
    simp only [Except.ok.injEq] at h
    rw [← h, hao]
  next => exact Except.noConfusion h

theorem phase2Peer_inv (gp : List Str) (p p2 : Peer0)
    (h : phase2Peer gp p = .ok p2) :
    ∃ p1 q2 q3 q4 q5,
      applyPfxSets p = .ok p1 ∧
      applyCommField PField.ImportCommunities PField.ImportStandardCommunities
        PField.ImportLargeCommunities (str "Invalid import community: ") p1 =
        .ok q2 ∧
      applyCommField PField.ExportCommunities PField.ExportStandardCommunities
        PField.ExportLargeCommunities (str "Invalid export community: ") q2 =
        .ok q3 ∧
      applyCommField PField.AnnounceCommunities
        PField.AnnounceStandardCommunities PField.AnnounceLargeCommunities
        (str "Invalid announce community: ") q3 = .ok q4 ∧
      applyCommField PField.RemoveCommunities PField.RemoveStandardCommunities
        PField.RemoveLargeCommunities (str "Invalid remove community: ") q4 =
        .ok q5 ∧
      applyAnnounceOriginated gp q5 = .ok p2 := by
  unfold phase2Peer at h
  obtain ⟨p1, h1, h⟩ := exceptBind_ok _ _ _ h
  obtain ⟨q2, h2, h⟩ := exceptBind_ok _ _ _ h
  obtain ⟨q3, h3, h⟩ := exceptBind_ok _ _ _ h
  obtain ⟨q4, h4, h⟩ := exceptBind_ok _ _ _ h
  obtain ⟨q5, h5, h⟩ := exceptBind_ok _ _ _ h
  exact ⟨p1, q2, q3, q4, q5, h1, h2, h3, h4, h5, h⟩

theorem phase2Peer_nonnone (gp : List Str) (p p2 : Peer0)
    (h : phase2Peer gp p = .ok p2) :
    ∀ f, peerDefault f ≠ str "-" → p f ≠ none → p2 f ≠ none := by
  intro f hdne hf
  obtain ⟨p1, q2, q3, q4, q5, h1, h2, h3, h4, h5, h6⟩ :=
    phase2Peer_inv gp p p2 h
  have d1 : f ≠ PField.PrefixSet4 := fun he => hdne (by rw [he]; decide)
  have d2 : f ≠ PField.PrefixSet6 := fun he => hdne (by rw [he]; decide)
  have d3 : f ≠ PField.ImportStandardCommunities := fun he => hdne (by rw [he]; decide)
  have d4 : f ≠ PField.ImportLargeCommunities := fun he => hdne (by rw [he]; decide)
  have d5 : f ≠ PField.ExportStandardCommunities := fun he => hdne (by rw [he]; decide)
  have d6 : f ≠ PField.ExportLargeCommunities := fun he => hdne (by rw [he]; decide)
  have d7 : f ≠ PField.AnnounceStandardCommunities :=
    fun he => hdne (by rw [he]; decide)
  have d8 : f ≠ PField.AnnounceLargeCommunities := fun he => hdne (by rw [he]; decide)
  have d9 : f ≠ PField.RemoveStandardCommunities := fun he => hdne (by rw [he]; decide)
  have d10 : f ≠ PField.RemoveLargeCommunities := fun he => hdne (by rw [he]; decide)
  refine applyAnnounceOriginated_pres gp q5 p2 h6 f ?_
  rw [applyCommField_other _ _ _ _ q4 q5 h5 f d9 d10,
    applyCommField_other _ _ _ _ q3 q4 h4 f d7 d8,
    applyCommField_other _ _ _ _ q2 q3 h3 f d5 d6,
    applyCommField_other _ _ _ _ p1 q2 h2 f d3 d4,
    applyPfxSets_other p p1 h1 f d1 d2]
  exact hf

theorem phase2Peer_announce_empty (p p2 : Peer0)
    (h : phase2Peer [] p = .ok p2) :
    p2 PField.AnnounceOriginated = some (FVal.b false) := by
  obtain ⟨p1, q2, q3, q4, q5, h1, h2, h3, h4, h5, h6⟩ :=
    phase2Peer_inv [] p p2 h
  exact applyAnnounceOriginated_empty q5 p2 h6

theorem phase2Peer_comm_valid (gp : List Str) (p p2 : Peer0)
    (h : phase2Peer gp p = .ok p2) :
    (∀ toks, p PField.ImportCommunities = some (FVal.sl toks) →
      ∀ t ∈ toks, categorizeCommunity t ≠ []) ∧
    (∀ toks, p PField.ExportCommunities = some (FVal.sl toks) →
      ∀ t ∈ toks, categorizeCommunity t ≠ []) ∧
    (∀ toks, p PField.AnnounceCommunities = some (FVal.sl toks) →
      ∀ t ∈ toks, categorizeCommunity t ≠ []) ∧
    (∀ toks, p PField.RemoveCommunities = some (FVal.sl toks) →
      ∀ t ∈ toks, categorizeCommunity t ≠ []) := by
  obtain ⟨p1, q2, q3, q4, q5, h1, h2, h3, h4, h5, h6⟩ :=
    phase2Peer_inv gp p p2 h
  refine ⟨?_, ?_, ?_, ?_⟩
  · intro toks htoks
    refine applyCommField_valid _ _ _ _ p1 q2 h2 toks ?_
    rw [applyPfxSets_other p p1 h1 _ (by decide) (by decide)]
    exact htoks
  · intro toks htoks
    refine applyCommField_valid _ _ _ _ q2 q3 h3 toks ?_
    rw [applyCommField_other _ _ _ _ p1 q2 h2 _ (by decide) (by decide),
      applyPfxSets_other p p1 h1 _ (by decide) (by decide)]
    exact htoks
  · intro toks htoks
    refine applyCommField_valid _ _ _ _ q3 q4 h4 toks ?_
    rw [applyCommField_other _ _ _ _ q2 q3 h3 _ (by decide) (by decide),
      applyCommField_other _ _ _ _ p1 q2 h2 _ (by decide) (by decide),
      applyPfxSets_other p p1 h1 _ (by decide) (by decide)]
    exact htoks
  · intro toks htoks
    refine applyCommField_valid _ _ _ _ q4 q5 h5 toks ?_
    rw [applyCommField_other _ _ _ _ q3 q4 h4 _ (by decide) (by decide),
      applyCommField_other _ _ _ _ q2 q3 h3 _ (by decide) (by decide),
      applyCommField_other _ _ _ _ p1 q2 h2 _ (by decide) (by decide),
      applyPfxSets_other p p1 h1 _ (by decide) (by decide)]
    exact htoks

theorem phase2Peer_prefix_valid (gp : List Str) (p p2 : Peer0)
    (h : phase2Peer gp p = .ok p2) :
    ∀ l, p PField.Prefixes = some (FVal.sl l) →
    ∀ q ∈ l, (parseCIDR q).isSome := by
  intro l hl
  obtain ⟨p1, q2, q3, q4, q5, h1, h2, h3, h4, h5, h6⟩ :=
    phase2Peer_inv gp p p2 h
  exact applyPfxSets_valid p p1 h1 l hl

theorem processPeers2_mem_out (gp : List Str) (l : List (Str × Peer0)) :
    ∀ l2, processPeers2 gp l = .ok l2 →
    ∀ np2 ∈ l2, ∃ np, np ∈ l ∧ np.1 = np2.1 ∧
      phase2Peer gp np.2 = .ok np2.2 := by
  induction l with
  | nil =>
    intro l2 h np2 hnp2
    simp only [processPeers2, Except.ok.injEq] at h
    rw [← h] at hnp2
    cases hnp2
  | cons q rest ih =>
    intro l2 h np2 hnp2
    unfold processPeers2 at h
    obtain ⟨pq, hq, h⟩ := exceptBind_ok _ _ _ h
    obtain ⟨r2, hr, h⟩ := exceptBind_ok _ _ _ h
    simp only [Except.ok.injEq] at h
    rw [← h] at hnp2
    rcases List.mem_cons.mp hnp2 with rfl | hnp3
    · exact ⟨q, List.mem_cons_self q rest, rfl, hq⟩
    · obtain ⟨np, hmem, hname, hph⟩ := ih r2 hr np2 hnp3
      exact ⟨np, List.mem_cons_of_mem _ hmem, hname, hph⟩

theorem processPeers2_mem_in (gp : List Str) (l : List (Str × Peer0)) :
    ∀ l2, processPeers2 gp l = .ok l2 →
    ∀ np ∈ l, ∃ p2, phase2Peer gp np.2 = .ok p2 := by
  induction l with
  | nil => intro l2 _ np hnp; cases hnp
  | cons q rest ih =>
    intro l2 h np hnp
    unfold processPeers2 at h
    obtain ⟨pq, hq, h⟩ := exceptBind_ok _ _ _ h
    obtain ⟨r2, hr, h⟩ := exceptBind_ok _ _ _ h
    rcases List.mem_cons.mp hnp with rfl | hnp2
    · exact ⟨pq, hq⟩
    · exact ih r2 hr np hnp2

theorem processPeers1_ok_fwd (sanitize : Str → Str)
    (templates : List (Str × Peer0)) (l : List (Str × Peer0)) :
    ∀ nv l2 nv2, processPeers1 sanitize templates l nv = .ok (l2, nv2) →
    ∀ np ∈ l, ∃ p2 nvA nvB,
      phase1Peer sanitize templates np.1 np.2 nvA = .ok (p2, nvB) ∧
      (np.1, p2) ∈ l2 := by
  induction l with
  | nil => intro nv l2 nv2 _ np hnp; cases hnp
  | cons q rest ih =>
    intro nv l2 nv2 h np hnp
    unfold processPeers1 at h
    split at h
    · exact Except.noConfusion h
    next pb hq =>
      split at h
      · exact Except.noConfusion h
      next rb hrest =>
        simp only [Except.ok.injEq, Prod.mk.injEq] at h
        rcases List.mem_cons.mp hnp with rfl | hnp2
        · refine ⟨pb.1, nv, pb.2, by rw [hq], ?_⟩
          rw [← h.1]
          exact List.mem_cons_self _ _
        · obtain ⟨p2, nvA, nvB, hph, hmem⟩ :=
            ih pb.2 rb.1 rb.2 (by rw [hrest]) np hnp2
          refine ⟨p2, nvA, nvB, hph, ?_⟩
          rw [← h.1]
          exact List.mem_cons_of_mem _ hmem

/-- C3: after a successful load, every field of every resolved peer that
carries a real declared default (not the "-" sentinel) holds a value; the
defaulting walk leaves "-"-default fields exactly as they were; and a field
whose schema entry carries no default tag at all makes the defaulting walk
fail with a fatal error rather than being skipped. -/
theorem C3_default_application (sanitize : Str → Str) (hn : Option Str)
    (c0 : Conf) (c : Conf) (dtag : PField → Str) (knd : PField → FKind)
    (p0 : Peer0) (g f0 : PField) :
    (load sanitize hn c0 = .ok c → ∀ np ∈ c.peers, ∀ f,
      peerDefault f ≠ str "-" → np.2 f ≠ none) ∧
    (∀ p2 o2, setDefaults dtag knd p0 = .ok (p2, o2) →
      dtag g = str "-" → p2 g = p0 g) ∧
    (f0 ∈ allFields → (dtag f0).isEmpty = true →
      ∃ msg, setDefaults dtag knd p0 = .error (.fatal msg)) := by
  refine ⟨?_, ?_, ?_⟩
  · intro h np hnp f hdne
    obtain ⟨hval, hct, pnv, p46, srd, s46, bfd, vrrp, hp, peers2, hp1, hp46,
      hsrd, hs46, hbfd, hvrrp, hrtr, hp2, hcpeers, hcq, hcp4, hcp6, hctmpl,
      hcpfx⟩ := load_ok_inv sanitize hn c0 c h
    rw [hcpeers] at hnp
    obtain ⟨np1, hmem1, hname, hph2⟩ :=
      processPeers2_mem_out c0.prefixes pnv.1 peers2 hp2 np hnp
    obtain ⟨np0, nvA, nvB, hmem0, hname0, hph1⟩ :=
      processPeers1_ok_out sanitize c0.templates c0.peers false pnv.1 pnv.2
        (by rw [hp1]) np1 hmem1
    have h1 := (phase1Peer_ok_parts sanitize c0.templates np0.1 np0.2 nvA
      np1.2 nvB hph1).2.2.1 f hdne
    exact phase2Peer_nonnone c0.prefixes np1.2 np.2 hph2 f hdne h1
  · intro p2 o2 h hg
    exact setDefaultsAux_skip dtag knd allFields p0 [] p2 o2 h g hg
  · intro hmem hemp
    exact setDefaultsAux_fatal dtag knd allFields p0 [] ⟨f0, hmem, hemp⟩

/-- Witness for C3: loading a minimal document fills the local-pref default
on its peer; the defaulting walk leaves the "-"-default template field of
the empty peer unset; an all-empty default schema fails fatally. -/
theorem C3_default_application_witness :
    (∃ c, load (fun s => s) none confBasic = .ok c ∧
      ∀ np ∈ c.peers, np.2 PField.LocalPref ≠ none) ∧
    (∃ po, setDefaults peerDefault peerKind emptyPeer = .ok po ∧
      po.1 PField.Template = emptyPeer PField.Template) ∧
    (∃ msg, setDefaults (fun _ => []) peerKind emptyPeer =
      .error (.fatal msg)) := by
  refine ⟨?_, ?_, ?_⟩
  · have hok : (load (fun s => s) none confBasic).isOk = true := by rfl
    cases hl : load (fun s => s) none confBasic with
    | error e =>
      rw [hl] at hok
      cases hok
    | ok c =>
      refine ⟨c, rfl, ?_⟩
      intro np hnp
      exact (C3_default_application (fun s => s) none confBasic c peerDefault
        peerKind emptyPeer PField.Template PField.ASN).1 hl np hnp
        PField.LocalPref (by decide)
  · have hok : (setDefaults peerDefault peerKind emptyPeer).isOk = true := by
      rfl
    cases hd : setDefaults peerDefault peerKind emptyPeer with
    | error e =>
      rw [hd] at hok
      cases hok
    | ok po =>
      refine ⟨po, rfl, ?_⟩
      exact (C3_default_application (fun s => s) none confBasic confBasic
        peerDefault peerKind emptyPeer PField.Template PField.ASN).2.1 po.1
        po.2 (by rw [hd]) (by decide)
  · exact (C3_default_application (fun s => s) none confBasic confBasic
      (fun _ => []) peerKind emptyPeer PField.Template PField.ASN).2.2
      (by decide) (by decide)

/-- Counterexample for C6: a peer that leaves its neighbor list unset while
referencing a template that provides neighbors does not resolve; the load
dies with the no-neighbors fatal error, because the neighbor check runs
before the template merge. -/
theorem C6_counterexample :
    load (fun s => s) none confNoNeighbors =
      .error (.fatal (str "[p] has no neighbors defined")) := by rfl

/-- C6 as amended: the neighbor-presence validation runs before the
template merge, so a peer whose own neighbor list is nil can never resolve,
no matter what any template would supply. -/
theorem C6_validation_before_merge (sanitize : Str → Str) (hn : Option Str)
    (c0 : Conf) (n : Str) (p : Peer0) (hmem : (n, p) ∈ c0.peers)
    (hnb : p PField.NeighborIPs = none) :
    ∀ c, load sanitize hn c0 ≠ .ok c := by
  intro c hok
  obtain ⟨hval, hct, pnv, p46, srd, s46, bfd, vrrp, hp, peers2, hp1, hp46,
    hsrd, hs46, hbfd, hvrrp, hrtr, hp2, hcpeers, hcq, hcp4, hcp6, hctmpl,
    hcpfx⟩ := load_ok_inv sanitize hn c0 c hok
  obtain ⟨nb, hsome, _⟩ := processPeers1_ok_in sanitize c0.templates c0.peers
    false pnv.1 pnv.2 (by rw [hp1]) (n, p) hmem
  have hsome2 : p PField.NeighborIPs = some (FVal.sl nb) := hsome
  rw [hnb] at hsome2
  cases hsome2

/-- Witness for the amended C6 at the concrete document. -/
theorem C6_validation_before_merge_witness :
    ¬ ∃ c, load (fun s => s) none confNoNeighbors = .ok c := by
  rintro ⟨c, hc⟩
  exact C6_validation_before_merge (fun s => s) none confNoNeighbors
    (str "p") peerNoNeighbors (List.mem_cons_self _ _) (by decide) c hc

/-- C7: a configuration in which some template itself carries a non-empty
template reference is rejected whatever the peers are: for every peer list
the load returns no configuration, because the template check precedes all
per-peer resolution. -/
theorem C7_template_of_template (sanitize : Str → Str) (hn : Option Str)
    (c0 : Conf) (n : Str) (t : Peer0) (v : Str)
    (hmem : (n, t) ∈ c0.templates)
    (hT : t PField.Template = some (FVal.s v)) (hv : v ≠ []) :
    ∀ ps : List (Str × Peer0), ∀ c,
      load sanitize hn { c0 with peers := ps } ≠ .ok c := by
  intro ps c hok
  obtain ⟨hval, hct, _⟩ :=
    load_ok_inv sanitize hn { c0 with peers := ps } c hok
  obtain ⟨msg, hmsg⟩ :=
    checkTemplates_offender c0.templates ⟨(n, t), hmem, v, hT, hv⟩
  rw [show ({ c0 with peers := ps } : Conf).templates = c0.templates from rfl,
    hmsg] at hct
  exact Except.noConfusion hct

/-- Witness for C7 at the concrete document with a self-referencing
template. -/
theorem C7_template_of_template_witness :
    ¬ ∃ c, load (fun s => s) none confTplRef = .ok c := by
  rintro ⟨c, hc⟩
  exact C7_template_of_template (fun s => s) none confTplRef (str "bad")
    tplSelfRef (str "other") (List.mem_cons_self _ _) (by decide) (by decide)
    confTplRef.peers c hc

/-- C8: when the global origin-prefix list is empty, every peer of a
successfully loaded configuration ends with announce-originated disabled;
the normalization is silent, not an error. -/
theorem C8_originated_normalization (sanitize : Str → Str) (hn : Option Str)
    (c0 : Conf) (c : Conf) (hpfx : c0.prefixes = [])
    (h : load sanitize hn c0 = .ok c) :
    ∀ np ∈ c.peers, np.2 PField.AnnounceOriginated = some (FVal.b false) := by
  intro np hnp
  obtain ⟨hval, hct, pnv, p46, srd, s46, bfd, vrrp, hp, peers2, hp1, hp46,
    hsrd, hs46, hbfd, hvrrp, hrtr, hp2, hcpeers, hcq, hcp4, hcp6, hctmpl,
    hcpfx⟩ := load_ok_inv sanitize hn c0 c h
  rw [hcpeers] at hnp
  obtain ⟨np1, hmem1, hname, hph2⟩ :=
    processPeers2_mem_out c0.prefixes pnv.1 peers2 hp2 np hnp
  rw [hpfx] at hph2
  exact phase2Peer_announce_empty np1.2 np.2 hph2

/-- Witness for C8: the peer that explicitly enables announce-originated
still loads successfully, and resolves with the flag off. -/
theorem C8_originated_normalization_witness :
    ∃ c, load (fun s => s) none confAnnounce = .ok c ∧ c.peers.length = 1 ∧
      ∀ np ∈ c.peers,
        np.2 PField.AnnounceOriginated = some (FVal.b false) := by
  have hok : (load (fun s => s) none confAnnounce).isOk = true := by rfl
  have hlen : (load (fun s => s) none confAnnounce).map
      (fun c => c.peers.length) = .ok 1 := by rfl
  cases hl : load (fun s => s) none confAnnounce with
  | error e =>
    rw [hl] at hok
    cases hok
  | ok c =>
    rw [hl] at hlen
    simp only [Except.map, Except.ok.injEq] at hlen
    exact ⟨c, rfl, hlen,
      C8_originated_normalization (fun s => s) none confAnnounce c rfl hl⟩

/-- C9: loading is all-or-nothing: either it fails with an error and no
configuration is returned at all, or it returns a configuration and then
every validated property held — no self-referencing template, every peer
had a non-empty neighbor list, every global origin prefix parsed, and every
community token of every peer classified as a valid standard or large
community.  No partially validated configuration is ever produced. -/
theorem C9_all_or_nothing (sanitize : Str → Str) (hn : Option Str)
    (c0 : Conf) :
    (∃ e, load sanitize hn c0 = .error e ∧
      ∀ c, load sanitize hn c0 ≠ .ok c) ∨
    (∃ c, load sanitize hn c0 = .ok c ∧
      (∀ nt ∈ c0.templates, ∀ v,
        nt.2 PField.Template = some (FVal.s v) → v = []) ∧
      (∀ np ∈ c0.peers, ∃ nb,
        np.2 PField.NeighborIPs = some (FVal.sl nb) ∧ nb ≠ []) ∧
      (∀ q ∈ c0.prefixes, (parseCIDR q).isSome) ∧
      (∀ np ∈ c0.peers, ∀ toks,
        (np.2 PField.ImportCommunities = some (FVal.sl toks) ∨
         np.2 PField.ExportCommunities = some (FVal.sl toks) ∨
         np.2 PField.AnnounceCommunities = some (FVal.sl toks) ∨
         np.2 PField.RemoveCommunities = some (FVal.sl toks)) →
        ∀ t ∈ toks, categorizeCommunity t ≠ [])) := by
  cases hres : load sanitize hn c0 with
  | error e =>
    refine Or.inl ⟨e, rfl, ?_⟩
    intro c hc
    exact Except.noConfusion hc
  | ok c =>
    refine Or.inr ⟨c, rfl, ?_, ?_, ?_, ?_⟩
    · obtain ⟨hval, hct, _⟩ := load_ok_inv sanitize hn c0 c hres
      exact checkTemplates_ok c0.templates hct
    ·
      obtain ⟨hval, hct, pnv, p46, srd, s46, bfd, vrrp, hp, peers2, hp1,
        hrest⟩ := load_ok_inv sanitize hn c0 c hres
      exact processPeers1_ok_in sanitize c0.templates c0.peers false pnv.1
        pnv.2 (by rw [hp1])
    ·
      obtain ⟨hval, hct, pnv, p46, srd, s46, bfd, vrrp, hp, peers2, hp1,
        hp46, hrest⟩ := load_ok_inv sanitize hn c0 c hres
      intro q hq
      by_contra hnone
      have hqn : parseCIDR q = none := Option.not_isSome_iff_eq_none.mp hnone
      obtain ⟨b, hb, hbn, herr⟩ := partitionPfx_err
        (str "Invalid origin prefix: ") c0.prefixes [] [] ⟨q, hq, hqn⟩
      rw [herr] at hp46
      exact Except.noConfusion hp46
    ·
      obtain ⟨hval, hct, pnv, p46, srd, s46, bfd, vrrp, hp, peers2, hp1,
        hp46, hsrd, hs46, hbfd, hvrrp, hrtr, hp2, hrest⟩ :=
        load_ok_inv sanitize hn c0 c hres
      intro np hnp toks hsrc t ht
      obtain ⟨p2, nvA, nvB, hph1, hmem2⟩ :=
        processPeers1_ok_fwd sanitize c0.templates c0.peers false pnv.1
          pnv.2 (by rw [hp1]) np hnp
      obtain ⟨p3, hph2⟩ := processPeers2_mem_in c0.prefixes pnv.1 peers2 hp2
        (np.1, p2) hmem2
      have hpres := (phase1Peer_ok_parts sanitize c0.templates np.1 np.2 nvA
        p2 nvB hph1).2.2.2
      have hcv := phase2Peer_comm_valid c0.prefixes p2 p3 hph2
      rcases hsrc with hs | hs | hs | hs
      · exact hcv.1 toks (hpres _ _ (by decide) (by decide) hs) t ht
      · exact hcv.2.1 toks (hpres _ _ (by decide) (by decide) hs) t ht
      · exact hcv.2.2.1 toks (hpres _ _ (by decide) (by decide) hs) t ht
      · exact hcv.2.2.2 toks (hpres _ _ (by decide) (by decide) hs) t ht

/-- Witness for C9: on a well-formed document the loader lands in the
success disjunct. -/
theorem C9_all_or_nothing_witness :
    ∃ c, load (fun s => s) none confBasic = .ok c := by
  rcases C9_all_or_nothing (fun s => s) none confBasic with
    ⟨e, he, hne⟩ | ⟨c, hc, hrest⟩
  · have hok : (load (fun s => s) none confBasic).isOk = true := by rfl
    rw [he] at hok
    cases hok
  · exact ⟨c, hc⟩

/-- C10: after a successful load, the query-NVRS flag is set exactly when
some peer of the input document has the filter-never-via-route-servers
field explicitly present (even explicitly false); a peer that merely
receives the default never sets it. -/
theorem C10_query_nvrs (sanitize : Str → Str) (hn : Option Str) (c0 : Conf)
    (c : Conf) (h : load sanitize hn c0 = .ok c) :
    c.queryNVRS = true ↔
    ∃ np ∈ c0.peers,
      (np.2 PField.FilterNeverViaRouteServers).isSome = true := by
  obtain ⟨hval, hct, pnv, p46, srd, s46, bfd, vrrp, hp, peers2, hp1, hp46,
    hsrd, hs46, hbfd, hvrrp, hrtr, hp2, hcpeers, hcq, hcp4, hcp6, hctmpl,
    hcpfx⟩ := load_ok_inv sanitize hn c0 c h
  rw [hcq, processPeers1_nvrs sanitize c0.templates c0.peers false pnv.1
    pnv.2 (by rw [hp1])]
  simp [List.any_eq_true]

/-- Witness for C10: a peer explicitly setting the field to false sets the
flag; a document without the field leaves it clear. -/
theorem C10_query_nvrs_witness :
    (∃ c, load (fun s => s) none confNVRS = .ok c ∧ c.queryNVRS = true) ∧
    (∃ c, load (fun s => s) none confBasic = .ok c ∧
      c.queryNVRS = false) := by
  constructor
  · have hok : (load (fun s => s) none confNVRS).isOk = true := by rfl
    cases hl : load (fun s => s) none confNVRS with
    | error e =>
      rw [hl] at hok
      cases hok
    | ok c =>
      refine ⟨c, rfl, ?_⟩
      exact (C10_query_nvrs (fun s => s) none confNVRS c hl).mpr
        ⟨(str "p", peerNVRS), List.mem_cons_self _ _, by decide⟩
  · have hok : (load (fun s => s) none confBasic).isOk = true := by rfl
    cases hl : load (fun s => s) none confBasic with
    | error e =>
      rw [hl] at hok
      cases hok
    | ok c =>
      refine ⟨c, rfl, ?_⟩
      cases hb : c.queryNVRS with
      | false => rfl
      | true =>
        obtain ⟨np, hmem, hsome⟩ :=
          (C10_query_nvrs (fun s => s) none confBasic c hl).mp hb
        have hnp : np = (str "peer1", peerBasic) := List.mem_singleton.mp hmem
        rw [hnp] at hsome
        exact absurd hsome (by decide)
